import Mathlib

/-!
Verification of the `ontodev/gadget` module-extraction engine
(`src/gadget/extract.py` and `src/gadget/sql.py`) against its
natural-language specification.

The Python code is shallowly embedded:
* Python dicts mapping a term to a list of parents/children become
  association lists (`Hier`); `dict.get` with a falsy check becomes
  `parentsOf` (absent key and empty list behave identically in the
  source, since both are falsy).
* Python sets accumulated by `set.add` / `set.update` become
  insertion-ordered duplicate-free lists (`TSet`); the recursive
  traversals mutate one shared accumulator set, which is faithfully
  rendered as threading the accumulator through the recursion
  (the `if not acc: acc = set()` re-binding at each entry coincides
  with threading because a fresh set is only created when the incoming
  set is empty).
* The unbounded Python recursion is given an explicit fuel argument;
  `none` is returned exactly when the source recursion would not
  terminate (Python `RecursionError` / hang).  Each `for` loop body is
  a top-level helper taking the recursive call as a function argument,
  so that every definition is structurally recursive and computable by
  the kernel.
-/

namespace Gadget


/-- Python `str.lower` on the ASCII range, kernel-computable (the
built-in `String.toLower` does not reduce in the kernel). -/
def lowerChar (c : Char) : Char :=
  if c.toNat >= 65 && c.toNat <= 90 then Char.ofNat (c.toNat + 32) else c

/-- Kernel-computable `str.lower`. -/
def strLower (s : String) : String := String.mk (s.data.map lowerChar)

/-- ASCII whitespace, as `str.strip` removes. -/
def wsChar (c : Char) : Bool := c == ' ' || c == '\t' || c == '\n' || c == '\r'

/-- Kernel-computable `str.strip`. -/
def strTrim (s : String) : String :=
  String.mk (((s.data.dropWhile wsChar).reverse.dropWhile wsChar).reverse)

/-- Kernel-computable `str.split(sep)` for a one-character separator:
every occurrence splits, consecutive separators produce empty parts. -/
def splitCharAux (sep : Char) : List Char → List Char → List String
  | [], cur => [String.mk cur.reverse]
  | c :: cs, cur =>
    if c = sep then String.mk cur.reverse :: splitCharAux sep cs []
    else splitCharAux sep cs (c :: cur)

/-- Kernel-computable `str.split(sep)`. -/
def splitChar (sep : Char) (s : String) : List String := splitCharAux sep s.data []

/-- A hierarchy mapping, as the Python dicts of term -> list of terms. -/
abbrev Hier := List (String × List String)

/-- An insertion-ordered set of term ids (Python `set` of strings,
observed only through membership and iteration). -/
abbrev TSet := List String

/-- Python `set.add`: add an element if not present. -/
def tinsert (s : TSet) (x : String) : TSet :=
  if x ∈ s then s else s ++ [x]

/-- `hierarchy.get(term_id)` followed by a falsy test: a missing key and
an empty list are both treated as "no entries" by every traversal in
`extract.py`. -/
def parentsOf (h : Hier) (t : String) : List String :=
  (h.lookup t).getD []

/-- The `for p in parents` loop of `get_top_ancestors`; `recur` is the
recursive call at the next fuel level. -/
def topGo (recur : String → TSet → Option TSet) (term : String) (tops : List String) :
    List String → TSet → Option TSet
  | [], acc => some acc
  | p :: ps, acc =>
    if p = "owl:Thing" then
      topGo recur term tops ps (tinsert acc term)
    else if p ∈ tops then
      topGo recur term tops ps (tinsert acc p)
    else
      match recur p acc with
      | none => none
      | some acc' => topGo recur term tops ps acc'

/-- `extract.py get_top_ancestors` (lines 624-653): walk up from
`term`, stopping at `owl:Thing` (recording `term`) or at a member of
`top_terms` (recording it); otherwise recurse through the parent.
Fueled; `none` models the unguarded recursion failing to terminate. -/
def get_top_ancestors : Nat → Hier → String → TSet → List String → Option TSet
  | 0, _, _, _, _ => none
  | fuel + 1, h, term, acc, tops =>
    match parentsOf h term with
    | [] => some (tinsert acc term)
    | ps => topGo (fun p a => get_top_ancestors fuel h p a tops) term tops ps acc

/-- The `for p in parents` loop of `get_hierarchy_capped`. -/
def cappedGo (recur : String → TSet → Option TSet) (tops : List String) :
    List String → TSet → Option TSet
  | [], acc => some acc
  | p :: ps, acc =>
    if p = "owl:Thing" then
      cappedGo recur tops ps acc
    else if tops ≠ [] ∧ p ∈ tops then
      cappedGo recur tops ps (tinsert acc p)
    else
      match recur p (tinsert acc p) with
      | none => none
      | some acc' => cappedGo recur tops ps acc'

/-- `extract.py get_hierarchy_capped` (lines 491-522): collect every
ancestor above `term`, skipping `owl:Thing`, stopping at members of
`top_terms` (which are still recorded). -/
def get_hierarchy_capped : Nat → Hier → List String → String → TSet → Option TSet
  | 0, _, _, _, _ => none
  | fuel + 1, h, tops, term, acc =>
    cappedGo (fun p a => get_hierarchy_capped fuel h tops p a) tops (parentsOf h term) acc

/-- The `for c in children` loop of `get_all_descendants`. -/
def allDescGo (recur : String → TSet → Option TSet) :
    List String → TSet → Option TSet
  | [], acc => some acc
  | c :: cs, acc =>
    match recur c (tinsert acc c) with
    | none => none
    | some acc' => allDescGo recur cs acc'

/-- `extract.py get_all_descendants` (lines 455-468): full downward
closure: add each child, then recurse through it. -/
def get_all_descendants : Nat → Hier → String → TSet → Option TSet
  | 0, _, _, _ => none
  | fuel + 1, h, term, acc =>
    allDescGo (fun c a => get_all_descendants fuel h c a) (parentsOf h term) acc

/-- The `for c in children` loop of `get_bottom_descendants`. -/
def botDescGo (recur : String → TSet → Option TSet) :
    List String → TSet → Option TSet
  | [], acc => some acc
  | c :: cs, acc =>
    match recur c acc with
    | none => none
    | some acc' => botDescGo recur cs acc'

/-- `extract.py get_bottom_descendants` (lines 471-488): leaf-only
downward closure: a term with no children records itself. -/
def get_bottom_descendants : Nat → Hier → String → TSet → Option TSet
  | 0, _, _, _ => none
  | fuel + 1, h, term, acc =>
    match parentsOf h term with
    | [] => some (tinsert acc term)
    | cs => botDescGo (fun c a => get_bottom_descendants fuel h c a) cs acc

/-- The two-term cycle `A -> B -> A` over the structural predicate,
as the child -> parents (or parent -> children) closure dict the
traversals receive. -/
def cycHier : Hier := [("ex:A", ["ex:B"]), ("ex:B", ["ex:A"])]


/-! ### Cyclic closures: none of the four traversals terminates -/

theorem topAnc_cyc (n : Nat) : ∀ acc,
    get_top_ancestors n cycHier "ex:A" acc [] = none ∧
    get_top_ancestors n cycHier "ex:B" acc [] = none := by
  induction n with
  | zero => exact fun acc => ⟨rfl, rfl⟩
  | succ n ih =>
    intro acc
    have hA : parentsOf cycHier "ex:A" = ["ex:B"] := rfl
    have hB : parentsOf cycHier "ex:B" = ["ex:A"] := rfl
    constructor
    · simp [get_top_ancestors, hA, topGo, (ih acc).2]
    · simp [get_top_ancestors, hB, topGo, (ih acc).1]

theorem capped_cyc (n : Nat) : ∀ acc,
    get_hierarchy_capped n cycHier [] "ex:A" acc = none ∧
    get_hierarchy_capped n cycHier [] "ex:B" acc = none := by
  induction n with
  | zero => exact fun acc => ⟨rfl, rfl⟩
  | succ n ih =>
    intro acc
    have hA : parentsOf cycHier "ex:A" = ["ex:B"] := rfl
    have hB : parentsOf cycHier "ex:B" = ["ex:A"] := rfl
    constructor
    · simp [get_hierarchy_capped, hA, cappedGo, (ih (tinsert acc "ex:B")).2]
    · simp [get_hierarchy_capped, hB, cappedGo, (ih (tinsert acc "ex:A")).1]

theorem allDesc_cyc (n : Nat) : ∀ acc,
    get_all_descendants n cycHier "ex:A" acc = none ∧
    get_all_descendants n cycHier "ex:B" acc = none := by
  induction n with
  | zero => exact fun acc => ⟨rfl, rfl⟩
  | succ n ih =>
    intro acc
    have hA : parentsOf cycHier "ex:A" = ["ex:B"] := rfl
    have hB : parentsOf cycHier "ex:B" = ["ex:A"] := rfl
    constructor
    · simp [get_all_descendants, hA, allDescGo, (ih (tinsert acc "ex:B")).2]
    · simp [get_all_descendants, hB, allDescGo, (ih (tinsert acc "ex:A")).1]

theorem botDesc_cyc (n : Nat) : ∀ acc,
    get_bottom_descendants n cycHier "ex:A" acc = none ∧
    get_bottom_descendants n cycHier "ex:B" acc = none := by
  induction n with
  | zero => exact fun acc => ⟨rfl, rfl⟩
  | succ n ih =>
    intro acc
    have hA : parentsOf cycHier "ex:A" = ["ex:B"] := rfl
    have hB : parentsOf cycHier "ex:B" = ["ex:A"] := rfl
    constructor
    · simp [get_bottom_descendants, hA, botDescGo, (ih acc).2]
    · simp [get_bottom_descendants, hB, botDescGo, (ih acc).1]

/-- C1: the spec requires every hierarchy traversal to terminate on a
cyclic closure, guarded by a visited-set.  The code has no visited-set
(and no cap): on the cycle `A -> B -> A` each of `get_top_ancestors`,
`get_hierarchy_capped`, `get_all_descendants` and
`get_bottom_descendants` recurses forever — for every amount of fuel
the fueled embedding fails to produce a result, so no output
containing the cycle edges is ever synthesized.  This contradicts the
spec (Scenario D), which is clearly the intent: the code is the bug. -/
theorem C1_cyclic_traversals_diverge (fuel : Nat) :
    get_top_ancestors fuel cycHier "ex:A" [] [] = none ∧
    get_hierarchy_capped fuel cycHier [] "ex:A" [] = none ∧
    get_all_descendants fuel cycHier "ex:A" [] = none ∧
    get_bottom_descendants fuel cycHier "ex:A" [] = none :=
  ⟨(topAnc_cyc fuel []).1, (capped_cyc fuel []).1,
   (allDesc_cyc fuel []).1, (botDesc_cyc fuel []).1⟩

/-! ### Root fixed point -/

/-- C6: for every term with no asserted parent (absent from the closure
mapping or mapped to an empty parent list) and every frontier set,
`get_top_ancestors` returns exactly the singleton containing the term. -/
theorem C6_root_fixed_point (h : Hier) (tops : List String) (t : String) (fuel : Nat)
    (hroot : h.lookup t = none ∨ h.lookup t = some []) :
    get_top_ancestors (fuel + 1) h t [] tops = some [t] := by
  have hp : parentsOf h t = [] := by
    cases hroot with
    | inl h1 => simp [parentsOf, h1]
    | inr h1 => simp [parentsOf, h1]
  simp [get_top_ancestors, hp, tinsert]

/-- Witness for C6 at a concrete input: `ex:A` is absent from the
closure `[("ex:B", ["ex:A"])]`, so its top ancestors are `{ex:A}`
for the arbitrary frontier `["x"]`. -/
theorem C6_root_fixed_point_witness :
    ([("ex:B", ["ex:A"])] : Hier).lookup "ex:A" = none ∧
    get_top_ancestors 4 [("ex:B", ["ex:A"])] "ex:A" [] ["x"] = some ["ex:A"] :=
  ⟨rfl, C6_root_fixed_point [("ex:B", ["ex:A"])] ["x"] "ex:A" 3 (Or.inl rfl)⟩


/-! ### The LDTab data model and the SQL layer (`src/gadget/sql.py`)

A statement table is a list of 8-column LDTab rows.  SQL result-set
order is unspecified; the model fixes table order.  The `annotation`
column is named `annot` here. -/

/-- One row of an LDTab `statement` table. -/
structure Fact where
  assertion : Nat
  retraction : Nat
  graph : String
  subject : String
  predicate : String
  object : String
  datatype : String
  annot : Option String
deriving DecidableEq, Repr

/-- `SELECT DISTINCT` accumulation: keep the first occurrence. -/
def distinctAdd {α : Type} [DecidableEq α] (l : List α) (x : α) : List α :=
  if x ∈ l then l else l ++ [x]

/-- `SELECT DISTINCT`: first occurrences, in order. -/
def distinct {α : Type} [DecidableEq α] (l : List α) : List α :=
  l.foldl distinctAdd []

/-- `UNION` a list of extra rows into an accumulated result, deduplicating. -/
def unionAdd {α : Type} [DecidableEq α] (l : List α) (xs : List α) : List α :=
  xs.foldl distinctAdd l

/-- Python `set.update`: union preserving insertion order. -/
def tunion (a b : TSet) : TSet := b.foldl tinsert a

/-- Whether a predicate is one of the two structural hierarchy predicates. -/
def structuralPred (p : String) : Bool :=
  p == "rdfs:subClassOf" || p == "rdfs:subPropertyOf"

/-- `sql.py get_children` (lines 98-104): distinct subjects of structural
edges into `term` (no datatype restriction in the source query). -/
def get_children (stmt : List Fact) (term : String) : List String :=
  distinct ((stmt.filter (fun f => f.object == term && structuralPred f.predicate)).map
    (fun f => f.subject))

/-- `sql.py get_parents` (lines 385-394): distinct objects of structural
edges out of `term` with datatype not `_JSON`; the Python `set(...)`
wrapper is the `distinct`. -/
def get_parents (stmt : List Fact) (term : String) : List String :=
  distinct ((stmt.filter (fun f => f.subject == term && structuralPred f.predicate &&
    f.datatype != "_JSON")).map (fun f => f.object))

/-- `sql.py get_ids` (lines 225-253), with ids-or-labels given: subjects
of `rdfs:label` rows whose object is an input, unioned with inputs that
occur as subjects; `UNION` deduplicates (subject, object) pairs and the
Python list keeps the subject of each pair. -/
def get_ids (stmt : List Fact) (ids : List String) : List String :=
  (distinct
    (((stmt.filter (fun f => f.predicate == "rdfs:label" && ids.contains f.object)).map
        (fun f => (f.subject, f.object))) ++
     ((stmt.filter (fun f => ids.contains f.subject)).map (fun f => (f.subject, f.subject))))).map
    Prod.fst

/-- Structural `_IRI` edges as (subject = child, object = parent) pairs,
the rows each branch of the recursive CTEs ranges over. -/
def hierEdges (stmt : List Fact) : List (String × String) :=
  (stmt.filter (fun f => structuralPred f.predicate && f.datatype == "_IRI")).map
    (fun f => (f.subject, f.object))

/-- Inner select of the CTEs' second branch: subjects of structural
edges into a seed (no datatype restriction in the source). -/
def seedChildren (stmt : List Fact) (seeds : List String) : List String :=
  (stmt.filter (fun f => structuralPred f.predicate && seeds.contains f.object)).map
    (fun f => f.subject)

/-- Non-recursive branches of the `get_ancestor_hierarchy` CTE
(`sql.py` lines 55-84): seed rows `(seed, NULL)`, edges whose parent is
a seed, and edges whose parent is a child of a seed. -/
def ancBase (stmt : List Fact) (seeds : List String) : List (String × Option String) :=
  (seeds.map (fun t => (t, (none : Option String)))) ++
  ((hierEdges stmt).filter (fun e => seeds.contains e.2)).map (fun e => (e.2, some e.1)) ++
  ((hierEdges stmt).filter (fun e => (seedChildren stmt seeds).contains e.2)).map
    (fun e => (e.2, some e.1))

/-- One round of the recursive branch: edges whose subject is already a
recorded parent. -/
def ancStep (stmt : List Fact) (seeds : List String)
    (r : List (String × Option String)) : List (String × Option String) :=
  unionAdd (distinct (ancBase stmt seeds))
    (((hierEdges stmt).filter (fun e => (r.map Prod.fst).contains e.1)).map
      (fun e => (e.2, some e.1)))

/-- The fixpoint of the ancestors CTE.  Every derivable pair is of the
form `(o, some s)` for an edge `(s, o)`, or a seed row, so the number of
distinct pairs is at most `|edges| + |seeds|` and that many rounds
reach the fixpoint. -/
def ancRows (stmt : List Fact) (seeds : List String) : List (String × Option String) :=
  (ancStep stmt seeds)^[(hierEdges stmt).length + seeds.length + 1] []

/-- Append a parent to a child's entry, creating the entry if missing
(the Python `defaultdict(list)` append). -/
def addParent : Hier → String → String → Hier
  | [], c, p => [(c, [p])]
  | (k, v) :: rest, c, p =>
    if k = c then (k, v ++ [p]) :: rest else (k, v) :: addParent rest c p

/-- Post-processing of `get_ancestor_hierarchy` (lines 87-95): build the
child -> parents dict, remapping `owl:Thing` to `owl:Class`.  The seed
rows have a NULL child and produce an inert `None` key in the Python
dict, which no string lookup ever reaches; they are skipped here. -/
def ancestorsDict (rows : List (String × Option String)) : Hier :=
  rows.foldl (fun d pr =>
    match pr.2 with
    | none => d
    | some c => addParent d c (if pr.1 = "owl:Thing" then "owl:Class" else pr.1)) []

/-- `sql.py get_ancestor_hierarchy` (lines 47-95). -/
def get_ancestor_hierarchy (stmt : List Fact) (seeds : List String) : Hier :=
  ancestorsDict (ancRows stmt seeds)

/-- Non-recursive branches of the `get_descendant_hierarchy` CTE
(lines 116-144): seed rows `(seed, NULL)` (child = seed), edges whose
parent is a seed, and edges whose parent is a child of a seed. -/
def descBase (stmt : List Fact) (seeds : List String) : List (String × Option String) :=
  (seeds.map (fun t => (t, (none : Option String)))) ++
  ((hierEdges stmt).filter (fun e => seeds.contains e.2)).map (fun e => (e.1, some e.2)) ++
  ((hierEdges stmt).filter (fun e => (seedChildren stmt seeds).contains e.2)).map
    (fun e => (e.1, some e.2))

/-- One round of the recursive branch: edges whose object is already a
recorded child. -/
def descStep (stmt : List Fact) (seeds : List String)
    (r : List (String × Option String)) : List (String × Option String) :=
  unionAdd (distinct (descBase stmt seeds))
    (((hierEdges stmt).filter (fun e => (r.map Prod.fst).contains e.2)).map
      (fun e => (e.1, some e.2)))

/-- The fixpoint of the descendants CTE. -/
def descRows (stmt : List Fact) (seeds : List String) : List (String × Option String) :=
  (descStep stmt seeds)^[(hierEdges stmt).length + seeds.length + 1] []

/-- Post-processing of `get_descendant_hierarchy` (lines 148-153):
parent -> children dict; no `owl:Thing` remapping on this side. -/
def descendantsDict (rows : List (String × Option String)) : Hier :=
  rows.foldl (fun d pr =>
    match pr.2 with
    | none => d
    | some p => addParent d p pr.1) []

/-- `sql.py get_descendant_hierarchy` (lines 107-153). -/
def get_descendant_hierarchy (stmt : List Fact) (seeds : List String) : Hier :=
  descendantsDict (descRows stmt seeds)

/-! ### QName escaping (`sql.py escape` / `escape_qnames`) -/

/-- The characters escaped in the local part of a CURIE. -/
def escChar (c : Char) : Bool :=
  (['~', '!', '$', '&', '\'', '(', ')', '*', '+', ',', ';', '=', '/', '?', '#', '@',
    '%'] : List Char).contains c

/-- The regex `(?<!\\)([...])` -> `\\\1` substitution: escape each
special character not already preceded (in the original string) by a
backslash. -/
def escLocal : Option Char → List Char → List Char
  | _, [] => []
  | prev, c :: cs =>
    if escChar c && prev != some '\\' then
      '\\' :: c :: escLocal (some c) cs
    else
      c :: escLocal (some c) cs

/-- `sql.py escape` (lines 22-27): split at the colons; escape the part
between the first and second colon (any further parts are dropped by
the source, which rebuilds only `prefix:local`).  A string with no
colon would raise `IndexError` in the source and is returned unchanged
here (no caller passes one). -/
def escape (curie : String) : String :=
  match splitChar ':' curie with
  | pfx :: loc :: _ => pfx ++ ":" ++ String.mk (escLocal none loc.data)
  | _ => curie

/-- `NOT LIKE '<%%>'`: not wrapped in angle brackets. -/
def notWrappedIri (s : String) : Bool :=
  !(s.data.head? == some '<' && s.data.getLast? == some '>')

/-- The distinct values of one column that the `escape_qnames` SELECT
returns (for the object column only `_IRI` rows are selected). -/
def qnameVals (rows : List Fact) (val : Fact → String) (iriOnly : Bool) : List String :=
  distinct ((rows.filter (fun r => notWrappedIri (val r) && (!iriOnly || r.datatype == "_IRI"))).map val)

/-- One `UPDATE table SET col = escaped WHERE col = curie`: applies to
every row with that column value — for the object column the UPDATE has
no datatype restriction even though the SELECT did (source quirk). -/
def applyUpd (val : Fact → String) (set : String → Fact → Fact) (v : String)
    (rows : List Fact) : List Fact :=
  rows.map (fun r => if val r == v then set (escape v) r else r)

/-- The UPDATE statements `escape_qnames` issues against a table with
the given rows, in source order: subjects, then predicates, then
objects.  Updating one column never changes the values another
column's SELECT sees, so computing all three value lists against the
same snapshot is equivalent to the staged Python queries. -/
def escapeUpdatesFor (rows : List Fact) : List (List Fact → List Fact) :=
  (((qnameVals rows (fun r => r.subject) false).filter (fun v => escape v != v)).map
    (applyUpd (fun r => r.subject) (fun s r => { r with subject := s }))) ++
  (((qnameVals rows (fun r => r.predicate) false).filter (fun v => escape v != v)).map
    (applyUpd (fun r => r.predicate) (fun s r => { r with predicate := s }))) ++
  (((qnameVals rows (fun r => r.object) true).filter (fun v => escape v != v)).map
    (applyUpd (fun r => r.object) (fun s r => { r with object := s })))

/-- Net effect of `sql.py escape_qnames` on the extract table. -/
def escape_qnames_table (rows : List Fact) : List Fact :=
  (escapeUpdatesFor rows).foldl (fun rs u => u rs) rows


/-! ### The module synthesizer (`extract.py create_tables`) -/

/-- Per-seed details: the optional override parent (`"Parent ID"`) and
the optional related-directive (`"Related"`). -/
structure TermDetails where
  parentId : Option String
  related : Option String
deriving DecidableEq, Repr

/-- The seed dict: term id -> details, in insertion order. -/
abbrev Terms := List (String × TermDetails)

/-- Python truthiness of an optional string (`None` and `""` are falsy). -/
def truthy : Option String → Bool
  | none => false
  | some s => s != ""

/-- `details.get("Parent ID")` under a truthiness test: an empty-string
override (as a blank spreadsheet cell produces) behaves like no
override. -/
def overrideOf (d : TermDetails) : Option String :=
  match d.parentId with
  | none => none
  | some s => if s = "" then none else some s

/-- First pass of `create_tables` (lines 247-255): the terms whose
hierarchy must be computed (no override, hierarchy not suppressed). -/
def assign_parents (terms : Terms) (noHierarchy : Bool) : List String :=
  terms.filterMap (fun td =>
    if noHierarchy then none
    else if truthy td.2.parentId then none
    else some td.1)

/-- Second pass of `create_tables` (lines 262-285), producing the
non-NULL `tmp_terms` rows in term order: the override edge, nothing
under `no_hierarchy`, or one edge per computed top ancestor that is
among the seed keys and differs from the term.  `keys` is
`list(terms.keys())` of the full dict.  Iteration order over the
Python set intersection is unspecified; the model keeps the traversal
order. -/
def termParentHead (hier : Hier) (keys : List String) (noHierarchy : Bool) (fuel : Nat)
    (td : String × TermDetails) : Option (List (String × Option String)) :=
  match overrideOf td.2 with
  | some o => some [(td.1, some o)]
  | none =>
    if noHierarchy then some []
    else
      match get_top_ancestors fuel hier td.1 [] keys with
      | none => none
      | some anc =>
        some (((anc.filter (fun p => keys.contains p)).filter
          (fun p => p != td.1)).map (fun p => (td.1, some p)))

/-- The second pass over all terms, concatenating each term's rows. -/
def termParentRows (hier : Hier) (keys : List String) (noHierarchy : Bool) (fuel : Nat) :
    Terms → Option (List (String × Option String))
  | [] => some []
  | td :: rest =>
    match termParentHead hier keys noHierarchy fuel td,
      termParentRows hier keys noHierarchy fuel rest with
    | some hd, some tl => some (hd ++ tl)
    | _, _ => none

/-- The non-structural distinct predicates of the statement table
(the `INSERT ... SELECT DISTINCT predicate` fallback). -/
def allPreds (stmt : List Fact) : List String :=
  distinct ((stmt.map (fun f => f.predicate)).filter (fun p =>
    !(p == "rdfs:subClassOf" || p == "rdfs:subPropertyOf" || p == "rdf:type")))

/-- Contents of `tmp_predicates` (lines 217-245): the explicit
predicate ids deduplicated (`INSERT OR IGNORE`), or — when the list is
`None` or empty — every non-structural predicate in the store. -/
def tmp_predicates (stmt : List Fact) (predicateIds : Option (List String)) : List String :=
  match predicateIds with
  | some (p :: ps) => (p :: ps).foldl distinctAdd []
  | _ => (allPreds stmt).foldl distinctAdd []

/-- `SELECT DISTINCT child FROM tmp_terms`: the working term set. -/
def tmpChildren (tmpTerms : List (String × Option String)) : List String :=
  distinct (tmpTerms.map Prod.fst)

/-- The non-NULL (child, parent) pairs of `tmp_terms`. -/
def tmpPairs (tmpTerms : List (String × Option String)) : List (String × String) :=
  tmpTerms.filterMap (fun r => match r.2 with
    | some p => some (r.1, p)
    | none => none)

/-- A synthesized hierarchy row `(1, 'graph', child, pred, parent, '_IRI')`. -/
def hierRow (pred child parent : String) : Fact :=
  ⟨1, 0, "graph", child, pred, parent, "_IRI", none⟩

/-- Subjects declared with `rdf:type` among the given types. -/
def typedSubjects (stmt : List Fact) (types : List String) : List String :=
  (stmt.filter (fun f => f.predicate == "rdf:type" && types.contains f.object)).map
    (fun f => f.subject)

/-- Emission rule 1 (lines 302-313): copy `rdf:type` declarations of
working-set subjects for the five OWL entity types. -/
def rule1Rows (stmt : List Fact) (ws : List String) : List Fact :=
  stmt.filter (fun f => ws.contains f.subject && f.predicate == "rdf:type" &&
    (["owl:Class", "owl:AnnotationProperty", "owl:DataProperty", "owl:ObjectProperty",
      "owl:NamedIndividual"] : List String).contains f.object)

/-- Emission rule 2 (lines 316-322): subproperty edges for children
typed as properties. -/
def rule2Rows (stmt : List Fact) (tmpTerms : List (String × Option String)) : List Fact :=
  (distinct ((tmpPairs tmpTerms).filter (fun cp =>
    (typedSubjects stmt ["owl:AnnotationProperty", "owl:DataProperty",
      "owl:ObjectProperty"]).contains cp.1))).map
    (fun cp => hierRow "rdfs:subPropertyOf" cp.1 cp.2)

/-- Emission rule 3 (lines 325-332): subclass edges for children typed
as classes. -/
def rule3Rows (stmt : List Fact) (tmpTerms : List (String × Option String)) : List Fact :=
  (distinct ((tmpPairs tmpTerms).filter (fun cp =>
    (typedSubjects stmt ["owl:Class"]).contains cp.1))).map
    (fun cp => hierRow "rdfs:subClassOf" cp.1 cp.2)

/-- Emission rule 4 (lines 336-342): remaining pairs become `rdf:type`
(instance) rows; reads the extract rows inserted so far. -/
def rule4Rows (tmpTerms : List (String × Option String)) (soFar : List Fact) : List Fact :=
  (distinct ((tmpPairs tmpTerms).filter (fun cp =>
    !(((soFar.filter (fun r => structuralPred r.predicate)).map (fun r => r.subject)).contains
      cp.1)))).map
    (fun cp => hierRow "rdf:type" cp.1 cp.2)

/-- Emission rule 5 (lines 345-352): literal rows on filtered
predicates (the SQL `object IS NOT NULL` is vacuous on the NOT NULL
object column). -/
def rule5Rows (stmt : List Fact) (ws preds : List String) : List Fact :=
  stmt.filter (fun f => ws.contains f.subject && preds.contains f.predicate &&
    !(f.datatype == "_IRI" || f.datatype == "_JSON"))

/-- Emission rule 6 (lines 355-361): rows whose subject and object are
both in the working set, on filtered predicates. -/
def rule6Rows (stmt : List Fact) (ws preds : List String) : List Fact :=
  stmt.filter (fun f => ws.contains f.subject && preds.contains f.predicate &&
    ws.contains f.object)

/-- Emission rule 7 (lines 364-372): `_IRI` rows on filtered predicates
that are declared annotation properties; the join yields one output row
per matching declaration row. -/
def rule7Rows (stmt : List Fact) (ws preds : List String) : List Fact :=
  stmt.flatMap (fun s1 =>
    if ws.contains s1.subject && preds.contains s1.predicate && s1.datatype == "_IRI" then
      (stmt.filter (fun s2 => s2.subject == s1.predicate &&
        s2.object == "owl:AnnotationProperty")).map
        (fun _ => (⟨1, 0, "graph", s1.subject, s1.predicate, s1.object, "_IRI", none⟩ : Fact))
    else [])

/-- Emission rule 8 (lines 375-384): one imported-from stamp per
distinct working term (skipped for a falsy IRI). -/
def rule8Rows (tmpTerms : List (String × Option String)) (impFrom : Option String)
    (impProp : String) : List Fact :=
  match impFrom with
  | none => []
  | some iri =>
    if iri = "" then []
    else (tmpChildren tmpTerms).map (fun c =>
      ⟨1, 0, "graph", c, impProp, "<" ++ iri ++ ">", "_IRI", none⟩)

/-- Emission rule 9 (lines 387-397): for each (from, to) pair, copy
every row on `from` with a working-set subject under predicate `to`
(no reference to `tmp_predicates`). -/
def rule9Rows (stmt : List Fact) (ws : List String) (copyPreds : List (String × String)) :
    List Fact :=
  copyPreds.flatMap (fun ft =>
    (stmt.filter (fun f => ws.contains f.subject && f.predicate == ft.1)).map
      (fun f => (⟨f.assertion, 0, f.graph, f.subject, ft.2, f.object, f.datatype, none⟩ : Fact)))

/-- The tables `create_tables` builds. -/
structure CreateResult where
  tmpTerms : List (String × Option String)
  tmpPreds : List String
  rows : List Fact
deriving DecidableEq, Repr

/-- The hierarchy `create_tables` queries: `get_ancestor_hierarchy`
over the terms needing parents, or an empty dict when there are none
(lines 257-260). -/
def createHier (stmt : List Fact) (terms : Terms) (noHierarchy : Bool) : Hier :=
  if assign_parents terms noHierarchy ≠ [] then
    get_ancestor_hierarchy stmt (assign_parents terms noHierarchy)
  else []

/-- The initial `(term, NULL)` rows of `tmp_terms` (lines 212-214). -/
def nullRows (terms : Terms) : List (String × Option String) :=
  terms.map (fun td => (td.1, (none : Option String)))

/-- The extract rows in emission order, rules 1-9, given the finished
`tmp_terms` and `tmp_predicates` (rule 4 reads the rows the first
three rules inserted). -/
def extractRows (stmt : List Fact) (tmp : List (String × Option String))
    (preds : List String) (copyPreds : List (String × String)) (impFrom : Option String)
    (impProp : String) : List Fact :=
  rule1Rows stmt (tmpChildren tmp) ++ rule2Rows stmt tmp ++ rule3Rows stmt tmp ++
  rule4Rows tmp (rule1Rows stmt (tmpChildren tmp) ++ rule2Rows stmt tmp ++
    rule3Rows stmt tmp) ++
  rule5Rows stmt (tmpChildren tmp) preds ++ rule6Rows stmt (tmpChildren tmp) preds ++
  rule7Rows stmt (tmpChildren tmp) preds ++ rule8Rows tmp impFrom impProp ++
  rule9Rows stmt (tmpChildren tmp) copyPreds

/-- `extract.py create_tables` (lines 184-397) as a pure function:
the `tmp_terms` rows, the `tmp_predicates` contents, and the extract
rows in emission order.  `none` models the unguarded
`get_top_ancestors` recursion failing to terminate. -/
def create_tables_result (stmt : List Fact) (terms : Terms)
    (predicateIds : Option (List String)) (copyPreds : List (String × String))
    (impFrom : Option String) (impProp : String) (noHierarchy : Bool) (fuel : Nat) :
    Option CreateResult :=
  match termParentRows (createHier stmt terms noHierarchy) (terms.map Prod.fst)
    noHierarchy fuel terms with
  | none => none
  | some prows =>
    some ⟨nullRows terms ++ prows, tmp_predicates stmt predicateIds,
      extractRows stmt (nullRows terms ++ prows) (tmp_predicates stmt predicateIds)
        copyPreds impFrom impProp⟩


/-! ### The related-entity expander (`extract.py get_related_entities`) -/

/-- `related.strip().lower().split(" ")` under the source's falsy
check. -/
def relatedWords (d : TermDetails) : Option (List String) :=
  match d.related with
  | none => none
  | some r => if r = "" then none else some (splitChar ' ' (strLower (strTrim r)))

/-- The `related_entities` dict of the first pass (lines 564-569). -/
def relatedEntries (terms : Terms) : List (String × List String) :=
  terms.filterMap (fun td => (relatedWords td.2).map (fun ws => (td.1, ws)))

/-- Terms batched into the one ancestors closure (first pass). -/
def ancestorSeeds (terms : Terms) : List String :=
  (relatedEntries terms).filterMap (fun tr =>
    if tr.2.contains "ancestors" then some tr.1 else none)

/-- Terms batched into the one descendants closure (the `elif`: a term
listing both is batched only for ancestors). -/
def descendantSeeds (terms : Terms) : List String :=
  (relatedEntries terms).filterMap (fun tr =>
    if !tr.2.contains "ancestors" && tr.2.contains "descendants" then some tr.1 else none)

/-- The (term, directive-word) pairs the second pass iterates over, in
order. -/
def relatedPairs (terms : Terms) : List (String × String) :=
  (relatedEntries terms).flatMap (fun tr => tr.2.map (fun r => (tr.1, r)))

/-- Dispatch of one directive word (lines 588-620); an unrecognized
word raises (`Except.error`), a diverging traversal is `none`. -/
def dispatchOne (stmt : List Fact) (keys : List String) (intermediates : String)
    (ancH descH : Hier) (fuel : Nat) (t r : String) (acc : TSet) :
    Option (Except String TSet) :=
  if r = "ancestors" then
    if intermediates = "none" then
      match get_top_ancestors fuel ancH t [] keys with
      | none => none
      | some s => some (.ok (tunion acc s))
    else
      match get_hierarchy_capped fuel ancH keys t [] with
      | none => none
      | some s => some (.ok (tunion acc s))
  else if r = "children" then some (.ok (tunion acc (get_children stmt t)))
  else if r = "descendants" then
    if intermediates = "none" then
      match get_bottom_descendants fuel descH t [] with
      | none => none
      | some s => some (.ok (tunion acc s))
    else
      match get_all_descendants fuel descH t [] with
      | none => none
      | some s => some (.ok (tunion acc s))
  else if r = "parents" then some (.ok (tunion acc (get_parents stmt t)))
  else some (.error ("unknown Related keyword for " ++ t ++ ": " ++ r))

/-- The second pass: fold the dispatch over all (term, word) pairs,
stopping at the first raise. -/
def dispatchAll (stmt : List Fact) (keys : List String) (intermediates : String)
    (ancH descH : Hier) (fuel : Nat) :
    List (String × String) → TSet → Option (Except String TSet)
  | [], acc => some (.ok acc)
  | tr :: rest, acc =>
    match dispatchOne stmt keys intermediates ancH descH fuel tr.1 tr.2 acc with
    | none => none
    | some (.error e) => some (.error e)
    | some (.ok acc') => dispatchAll stmt keys intermediates ancH descH fuel rest acc'

/-- `extract.py get_related_entities` (lines 550-621): batch the two
closure queries, then resolve each directive into extra terms. -/
def get_related_entities (stmt : List Fact) (terms : Terms) (intermediates : String)
    (fuel : Nat) : Option (Except String TSet) :=
  let ancH := if ancestorSeeds terms ≠ [] then
    get_ancestor_hierarchy stmt (ancestorSeeds terms) else []
  let descH := if descendantSeeds terms ≠ [] then
    get_descendant_hierarchy stmt (descendantSeeds terms) else []
  dispatchAll stmt (terms.map Prod.fst) intermediates ancH descH fuel (relatedPairs terms) []

/-! ### The store and the orchestrator (`extract.py extract` / `clean`)

The database state carries the immutable statement table, the two
transient tables and the named extract table; `none` means the table
does not exist.  Each SQL statement the orchestrator executes is one
`Op`; a run may carry at most one injected backing-store fault, named
by phase and statement index, which makes the failing statement raise
without changing state.  All closure queries are reads and cannot
change state.  -/

/-- A database: statement table plus the three tables this run touches. -/
structure DB where
  statement : List Fact
  tmpTerms : Option (List (String × Option String))
  tmpPreds : Option (List String)
  extractTab : Option (List Fact)
deriving DecidableEq, Repr

/-- The phases in which an injected store fault can strike. -/
inductive Phase
  | preClean
  | create
  | finallyClean
  | escape
deriving DecidableEq, Repr

/-- At most one injected store failure: phase and statement index. -/
abbrev Fault := Option (Phase × Nat)

/-- The fault index for one phase, if the fault falls in it. -/
def faultFor (f : Fault) (ph : Phase) : Option Nat :=
  match f with
  | some pn => if pn.1 = ph then some pn.2 else none
  | none => none

/-- One SQL statement's effect on the database. -/
abbrev Op := DB → DB

/-- Run the statements of a phase; the faulted statement raises
(`Except.error` with the state at that point) without applying. -/
def runPhase : Option Nat → List Op → DB → Except DB DB
  | _, [], db => .ok db
  | some 0, _ :: _, db => .error db
  | some (n + 1), op :: rest, db => runPhase (some n) rest (op db)
  | none, op :: rest, db => runPhase none rest (op db)

/-- Sequential application of a phase's statements (the fault-free
run). -/
def applyOps (ops : List Op) (db : DB) : DB :=
  ops.foldl (fun d op => op d) db

def dropTmpTermsOp : Op := fun db => { db with tmpTerms := none }

def dropTmpPredsOp : Op := fun db => { db with tmpPreds := none }

def dropExtractOp : Op := fun db => { db with extractTab := none }

/-- `extract.py clean` (lines 172-181): drop the tmp tables and, when a
name is given, the extract table. -/
def cleanOps (dropExtract : Bool) : List Op :=
  [dropTmpTermsOp, dropTmpPredsOp] ++ (if dropExtract then [dropExtractOp] else [])

def createTmpTermsOp : Op := fun db => { db with tmpTerms := some [] }

def insTmpTermOp (r : String × Option String) : Op := fun db =>
  { db with tmpTerms := db.tmpTerms.map (fun l => l ++ [r]) }

def createTmpPredsOp : Op := fun db => { db with tmpPreds := some [] }

/-- `INSERT OR IGNORE INTO tmp_predicates VALUES (p)`. -/
def insTmpPredOp (p : String) : Op := fun db =>
  { db with tmpPreds := db.tmpPreds.map (fun l => distinctAdd l p) }

/-- `INSERT OR IGNORE INTO tmp_predicates SELECT DISTINCT predicate ...`. -/
def insAllTmpPredsOp : Op := fun db =>
  { db with tmpPreds := db.tmpPreds.map (fun l => (allPreds db.statement).foldl distinctAdd l) }

def createExtractOp : Op := fun db => { db with extractTab := some [] }

def rule1Op : Op := fun db =>
  { db with extractTab := db.extractTab.map (fun l =>
      l ++ rule1Rows db.statement (tmpChildren (db.tmpTerms.getD []))) }

def rule2Op : Op := fun db =>
  { db with extractTab := db.extractTab.map (fun l =>
      l ++ rule2Rows db.statement (db.tmpTerms.getD [])) }

def rule3Op : Op := fun db =>
  { db with extractTab := db.extractTab.map (fun l =>
      l ++ rule3Rows db.statement (db.tmpTerms.getD [])) }

def rule4Op : Op := fun db =>
  { db with extractTab := db.extractTab.map (fun l =>
      l ++ rule4Rows (db.tmpTerms.getD []) (db.extractTab.getD [])) }

def rule5Op : Op := fun db =>
  { db with extractTab := db.extractTab.map (fun l =>
      l ++ rule5Rows db.statement (tmpChildren (db.tmpTerms.getD [])) (db.tmpPreds.getD [])) }

def rule6Op : Op := fun db =>
  { db with extractTab := db.extractTab.map (fun l =>
      l ++ rule6Rows db.statement (tmpChildren (db.tmpTerms.getD [])) (db.tmpPreds.getD [])) }

def rule7Op : Op := fun db =>
  { db with extractTab := db.extractTab.map (fun l =>
      l ++ rule7Rows db.statement (tmpChildren (db.tmpTerms.getD [])) (db.tmpPreds.getD [])) }

def impOp (impFrom : Option String) (impProp : String) : Op := fun db =>
  { db with extractTab := db.extractTab.map (fun l =>
      l ++ rule8Rows (db.tmpTerms.getD []) impFrom impProp) }

def copyOp (ft : String × String) : Op := fun db =>
  { db with extractTab := db.extractTab.map (fun l =>
      l ++ rule9Rows db.statement (tmpChildren (db.tmpTerms.getD [])) [ft]) }

/-- An `UPDATE` on the extract table. -/
def liftTableUpd (u : List Fact → List Fact) : Op := fun db =>
  { db with extractTab := db.extractTab.map u }

/-- The statements `escape_qnames` executes against the extract table. -/
def escapeOps (rows : List Fact) : List Op :=
  (escapeUpdatesFor rows).map liftTableUpd

/-- The SQL statements `create_tables` executes, in source order
(lines 211-397); the batched hierarchy query between the tmp-table
inserts and the parent-row inserts is a read.  `none` models a
diverging `get_top_ancestors` (Python `RecursionError`). -/
def createOps (stmt : List Fact) (terms : Terms) (predicateIds : Option (List String))
    (copyPreds : List (String × String)) (impFrom : Option String) (impProp : String)
    (noHierarchy : Bool) (fuel : Nat) : Option (List Op) :=
  match termParentRows (createHier stmt terms noHierarchy) (terms.map Prod.fst)
    noHierarchy fuel terms with
  | none => none
  | some prows =>
    some ([createTmpTermsOp] ++
      ((nullRows terms).map insTmpTermOp) ++
      [createTmpPredsOp] ++
      (match predicateIds with
       | some (p :: ps) => (p :: ps).map insTmpPredOp
       | _ => [insAllTmpPredsOp]) ++
      (prows.map insTmpTermOp) ++
      [createExtractOp, rule1Op, rule2Op, rule3Op, rule4Op, rule5Op, rule6Op, rule7Op] ++
      (if truthy impFrom then [impOp impFrom impProp] else []) ++
      (copyPreds.map copyOp))

/-- How a run can fail. -/
inductive ExtractErr
  | configError
  | storeError
deriving DecidableEq, Repr

/-- The merge of expander results into the seed dict (lines 422-426). -/
def mergeTerms (terms : Terms) (more : TSet) : Terms :=
  terms ++ (more.filter (fun m => !((terms.map Prod.fst).contains m))).map
    (fun m => (m, ({ parentId := none, related := none } : TermDetails)))

/-- `predicate_ids` of `extract` (lines 428-431): resolved ids when a
non-empty predicate list is supplied, otherwise `None`. -/
def predIdsOf (stmt : List Fact) (predicates : List String) : Option (List String) :=
  if predicates ≠ [] then some (get_ids stmt predicates) else none

/-- `extract.py extract` (lines 400-452): validate the intermediates
option, expand related entities, pre-clean (dropping any prior extract
table), build the tables inside `try`, always re-clean the tmp tables
(`finally`), then escape QNames.  The result carries the final
database state; errors carry the state at the raise (after the
`finally` cleanup where one runs).  `none` is a run on which the
model's fuel ran out (a diverging traversal: Python would raise
`RecursionError` instead of completing). -/
def extract_run (db : DB) (terms : Terms) (predicates : List String)
    (copyPreds : List (String × String)) (impFrom : Option String) (impProp : String)
    (intermediates : String) (noHierarchy : Bool) (fuel : Nat) (fault : Fault) :
    Option (Except (ExtractErr × DB) DB) :=
  let inter := strLower intermediates
  if !(inter == "all" || inter == "none") then some (.error (.configError, db))
  else
    match get_related_entities db.statement terms inter fuel with
    | none => none
    | some (.error _) => some (.error (.configError, db))
    | some (.ok more) =>
      let terms2 := mergeTerms terms more
      let predicateIds := predIdsOf db.statement predicates
      match runPhase (faultFor fault .preClean) (cleanOps true) db with
      | .error d => some (.error (.storeError, d))
      | .ok db1 =>
        match createOps db1.statement terms2 predicateIds copyPreds impFrom impProp
          noHierarchy fuel with
        | none => none
        | some ops =>
          match runPhase (faultFor fault .create) ops db1 with
          | .error d2 =>
            match runPhase (faultFor fault .finallyClean) (cleanOps false) d2 with
            | .error d3 => some (.error (.storeError, d3))
            | .ok d3 => some (.error (.storeError, d3))
          | .ok d2 =>
            match runPhase (faultFor fault .finallyClean) (cleanOps false) d2 with
            | .error d3 => some (.error (.storeError, d3))
            | .ok d3 =>
              match runPhase (faultFor fault .escape) (escapeOps (d3.extractTab.getD [])) d3 with
              | .error d4 => some (.error (.storeError, d4))
              | .ok d4 => some (.ok d4)


/-! ### Phase lemmas -/

theorem runPhase_none (ops : List Op) (db : DB) :
    runPhase none ops db = .ok (applyOps ops db) := by
  induction ops generalizing db with
  | nil => simp [runPhase, applyOps]
  | cons op rest ih => simp [runPhase, applyOps] at *; exact ih (op db)

/-- The state an `Except`-valued phase run exits with. -/
def exitDB : Except DB DB → DB
  | .ok d => d
  | .error d => d

theorem clean_ok_tmps (f : Option Nat) (dropE : Bool) (db d : DB)
    (h : runPhase f (cleanOps dropE) db = .ok d) :
    d.tmpTerms = none ∧ d.tmpPreds = none := by
  cases dropE <;>
    rcases f with _ | (_ | _ | _ | n) <;>
    simp [cleanOps, runPhase, dropTmpTermsOp, dropTmpPredsOp, dropExtractOp] at h <;>
    subst h <;> simp

theorem clean_error_tmps (f : Option Nat) (dropE : Bool) (db d : DB)
    (h0 : db.tmpTerms = none) (h1 : db.tmpPreds = none)
    (h : runPhase f (cleanOps dropE) db = .error d) :
    d.tmpTerms = none ∧ d.tmpPreds = none := by
  cases dropE <;>
    rcases f with _ | (_ | _ | _ | n) <;>
    simp [cleanOps, runPhase, dropTmpTermsOp, dropTmpPredsOp, dropExtractOp] at h <;>
    subst h <;> simp_all

theorem escape_phase_tmps (f : Option Nat) (us : List (List Fact → List Fact)) (db : DB) :
    (exitDB (runPhase f (us.map liftTableUpd) db)).tmpTerms = db.tmpTerms ∧
    (exitDB (runPhase f (us.map liftTableUpd) db)).tmpPreds = db.tmpPreds := by
  induction us generalizing f db with
  | nil => simp [runPhase, exitDB]
  | cons u rest ih =>
    rcases f with _ | (_ | n)
    · simpa [runPhase, liftTableUpd] using ih none (liftTableUpd u db)
    · simp [runPhase, exitDB]
    · simpa [runPhase, liftTableUpd] using ih (some n) (liftTableUpd u db)

theorem faultFor_none_of_not_phase (fault : Fault) (ph : Phase)
    (h : ∀ n, fault ≠ some (ph, n)) : faultFor fault ph = none := by
  rcases fault with _ | ⟨p, n⟩
  · rfl
  · simp [faultFor]
    intro hp
    exact absurd (by rw [hp]) (h n)


/-- The database state a run exits with, successful or not (`none`:
the model ran out of fuel). -/
def runExit : Option (Except (ExtractErr × DB) DB) → Option DB
  | none => none
  | some (.ok d) => some d
  | some (.error ed) => some ed.2

/-- C7: an unrecognized intermediates option, or an unrecognized
related-directive (the condition on which `get_related_entities`
raises), fails the whole run with a ConfigError and the database is
exactly as it was: the prior extract table has not been dropped and no
table has been created or written. -/
theorem C7_config_error_before_write (db : DB) (terms : Terms) (predicates : List String)
    (copyPreds : List (String × String)) (impFrom : Option String) (impProp : String)
    (intermediates : String) (noHierarchy : Bool) (fuel : Nat) (fault : Fault)
    (hbad : ¬(strLower intermediates = "all" ∨ strLower intermediates = "none") ∨
      ∃ e, get_related_entities db.statement terms (strLower intermediates) fuel =
        some (.error e)) :
    extract_run db terms predicates copyPreds impFrom impProp intermediates noHierarchy
      fuel fault = some (.error (.configError, db)) := by
  rcases hbad with h | ⟨e, he⟩
  · have hc : (strLower intermediates == "all" || strLower intermediates == "none") = false := by
      push_neg at h
      simp [h.1, h.2]
    unfold extract_run
    simp [hc]
  · by_cases hv : (strLower intermediates == "all" || strLower intermediates == "none") = true
    · unfold extract_run
      simp [hv, he]
    · unfold extract_run
      simp only [Bool.not_eq_true] at hv
      simp [hv]

/-- Witness for C7: a seed with the unknown directive `bogus` makes the
run exit with ConfigError and an untouched database. -/
theorem C7_config_error_before_write_witness :
    extract_run ⟨[], some [("x", none)], none, some []⟩ [("ex:a", ⟨none, some "bogus"⟩)]
      [] [] none "IAO:0000412" "all" false 3 none =
      some (.error (.configError, ⟨[], some [("x", none)], none, some []⟩)) :=
  C7_config_error_before_write ⟨[], some [("x", none)], none, some []⟩
    [("ex:a", ⟨none, some "bogus"⟩)] [] [] none "IAO:0000412" "all" false 3 none
    (Or.inr ⟨"unknown Related keyword for ex:a: bogus", rfl⟩)


/-- C8 amended: on every exit path — success, a ConfigError, or a
backing-store fault during pre-clean, table synthesis, or QName
escaping — the tmp tables are gone when control (or the error) reaches
the caller; only a fault striking the final cleanup's own DROP
statements can leave them behind. -/
theorem C8_amended_tmp_cleanup (db : DB) (terms : Terms) (predicates : List String)
    (copyPreds : List (String × String)) (impFrom : Option String) (impProp : String)
    (intermediates : String) (noHierarchy : Bool) (fuel : Nat) (fault : Fault)
    (h0 : db.tmpTerms = none) (h1 : db.tmpPreds = none)
    (hf : ∀ n, fault ≠ some (.finallyClean, n)) :
    ∀ d, runExit (extract_run db terms predicates copyPreds impFrom impProp intermediates
      noHierarchy fuel fault) = some d → d.tmpTerms = none ∧ d.tmpPreds = none := by
  intro d hd
  unfold extract_run at hd
  have hfin : faultFor fault .finallyClean = none :=
    faultFor_none_of_not_phase fault .finallyClean hf
  cases hb : (strLower intermediates == "all" || strLower intermediates == "none") with
  | false =>
    simp [hb, runExit] at hd
    subst hd
    exact ⟨h0, h1⟩
  | true =>
    cases hrel : get_related_entities db.statement terms (strLower intermediates) fuel with
    | none => simp [hb, hrel, runExit] at hd
    | some x =>
      cases x with
      | error e =>
        simp [hb, hrel, runExit] at hd
        subst hd
        exact ⟨h0, h1⟩
      | ok more =>
        cases hpre : runPhase (faultFor fault .preClean) (cleanOps true) db with
        | error dE =>
          simp [hb, hrel, hpre, runExit] at hd
          subst hd
          exact clean_error_tmps _ _ _ _ h0 h1 hpre
        | ok db1 =>
          cases hco : createOps db1.statement (mergeTerms terms more)
            (predIdsOf db.statement predicates) copyPreds impFrom impProp noHierarchy fuel with
          | none => simp [hb, hrel, hpre, hco, runExit] at hd
          | some ops =>
            cases hcr : runPhase (faultFor fault .create) ops db1 with
            | error d2 =>
              simp [hb, hrel, hpre, hco, hcr, hfin, runPhase_none, runExit] at hd
              subst hd
              exact clean_ok_tmps none false d2 _ (runPhase_none _ d2)
            | ok d2 =>
              have h3 : (applyOps (cleanOps false) d2).tmpTerms = none ∧
                  (applyOps (cleanOps false) d2).tmpPreds = none :=
                clean_ok_tmps none false d2 _ (runPhase_none _ d2)
              simp only [hb, hrel, hpre, hco, hcr, hfin, runPhase_none] at hd
              cases hesc : runPhase (faultFor fault .escape)
                (escapeOps ((applyOps (cleanOps false) d2).extractTab.getD []))
                (applyOps (cleanOps false) d2) with
              | error d4 =>
                simp [hesc, runExit] at hd
                subst hd
                have hpr := escape_phase_tmps (faultFor fault .escape)
                  (escapeUpdatesFor ((applyOps (cleanOps false) d2).extractTab.getD []))
                  (applyOps (cleanOps false) d2)
                rw [show ((escapeUpdatesFor ((applyOps (cleanOps false) d2).extractTab.getD [])).map
                  liftTableUpd) = escapeOps ((applyOps (cleanOps false) d2).extractTab.getD [])
                  from rfl, hesc] at hpr
                simp only [exitDB] at hpr
                exact ⟨hpr.1.trans h3.1, hpr.2.trans h3.2⟩
              | ok d4 =>
                simp [hesc, runExit] at hd
                subst hd
                have hpr := escape_phase_tmps (faultFor fault .escape)
                  (escapeUpdatesFor ((applyOps (cleanOps false) d2).extractTab.getD []))
                  (applyOps (cleanOps false) d2)
                rw [show ((escapeUpdatesFor ((applyOps (cleanOps false) d2).extractTab.getD [])).map
                  liftTableUpd) = escapeOps ((applyOps (cleanOps false) d2).extractTab.getD [])
                  from rfl, hesc] at hpr
                simp only [exitDB] at hpr
                exact ⟨hpr.1.trans h3.1, hpr.2.trans h3.2⟩


/-- Rows used by the concrete orchestrator runs below: one statement
table with a class-typed seed and a label. -/
def cexTypeRow : Fact := ⟨1, 0, "graph", "ex:a", "rdf:type", "owl:Class", "_IRI", none⟩

def cexLabelRow : Fact := ⟨1, 0, "graph", "ex:a", "rdfs:label", "thing a", "xsd:string", none⟩

def cexStmt : List Fact := [cexTypeRow, cexLabelRow]

/-- C8 counterexample to the claim as stated: a backing-store failure
on the final cleanup's first DROP (an error raised at a stage of
extraction) exits with BOTH tmp tables still present. -/
theorem C8_counterexample :
    runExit (extract_run ⟨cexStmt, none, none, none⟩ [("ex:a", ⟨none, none⟩)] [] [] none
      "IAO:0000412" "all" false 10 (some (.finallyClean, 0))) =
      some ⟨cexStmt, some [("ex:a", none)], some ["rdfs:label"],
        some [cexTypeRow, cexLabelRow]⟩ ∧
    (some [("ex:a", (none : Option String))] ≠ (none : Option (List (String × Option String)))) :=
  ⟨rfl, by decide⟩

/-- C2 counterexample to the claim as stated: a backing-store failure
during the literal-annotation insert (rule 5) exits with the extract
table present but holding only the rows of rule 1 — neither fully
absent nor the fully built table that the fault-free run produces. -/
theorem C2_counterexample :
    extract_run ⟨cexStmt, none, none, none⟩ [("ex:a", ⟨none, none⟩)] [] [] none
      "IAO:0000412" "all" false 10 (some (.create, 9)) =
      some (.error (.storeError, ⟨cexStmt, none, none, some [cexTypeRow]⟩)) ∧
    (some [cexTypeRow] ≠ (none : Option (List Fact))) ∧
    [cexTypeRow] ≠ [cexTypeRow, cexLabelRow] ∧
    extract_run ⟨cexStmt, none, none, none⟩ [("ex:a", ⟨none, none⟩)] [] [] none
      "IAO:0000412" "all" false 10 none =
      some (.ok ⟨cexStmt, none, none, some [cexTypeRow, cexLabelRow]⟩) :=
  ⟨rfl, by decide, by decide, rfl⟩


/-! ### Effect of the fault-free create phase -/

theorem applyOps_nil (db : DB) : applyOps [] db = db := rfl

theorem applyOps_cons (op : Op) (ops : List Op) (db : DB) :
    applyOps (op :: ops) db = applyOps ops (op db) := rfl

theorem applyOps_append (l1 l2 : List Op) (db : DB) :
    applyOps (l1 ++ l2) db = applyOps l2 (applyOps l1 db) := by
  simp [applyOps, List.foldl_append]

theorem applyOps_insTmpTerm (rows : List (String × Option String)) (db : DB) :
    applyOps (rows.map insTmpTermOp) db =
      { db with tmpTerms := db.tmpTerms.map (fun l => l ++ rows) } := by
  induction rows generalizing db with
  | nil => simp [applyOps]
  | cons r rest ih =>
    simp only [List.map_cons, applyOps, List.foldl_cons]
    rw [show (List.foldl (fun d op => op d) (insTmpTermOp r db) (rest.map insTmpTermOp)) =
      applyOps (rest.map insTmpTermOp) (insTmpTermOp r db) from rfl, ih]
    cases h : db.tmpTerms <;> simp [insTmpTermOp, h]

theorem applyOps_insTmpPred (ps : List String) (db : DB) :
    applyOps (ps.map insTmpPredOp) db =
      { db with tmpPreds := db.tmpPreds.map (fun l => ps.foldl distinctAdd l) } := by
  induction ps generalizing db with
  | nil => simp [applyOps]
  | cons p rest ih =>
    simp only [List.map_cons, applyOps, List.foldl_cons]
    rw [show (List.foldl (fun d op => op d) (insTmpPredOp p db) (rest.map insTmpPredOp)) =
      applyOps (rest.map insTmpPredOp) (insTmpPredOp p db) from rfl, ih]
    cases h : db.tmpPreds <;> simp [insTmpPredOp, h]

theorem applyOps_copyOps (pairs : List (String × String)) (db : DB) :
    applyOps (pairs.map copyOp) db =
      { db with extractTab := db.extractTab.map (fun l =>
          l ++ rule9Rows db.statement (tmpChildren (db.tmpTerms.getD [])) pairs) } := by
  induction pairs generalizing db with
  | nil => simp [applyOps, rule9Rows]
  | cons ft rest ih =>
    simp only [List.map_cons, applyOps, List.foldl_cons]
    rw [show (List.foldl (fun d op => op d) (copyOp ft db) (rest.map copyOp)) =
      applyOps (rest.map copyOp) (copyOp ft db) from rfl, ih]
    cases h : db.extractTab <;>
      simp [copyOp, h, rule9Rows, List.flatMap_cons, List.append_assoc]

theorem applyOps_escape (us : List (List Fact → List Fact)) (db : DB) :
    applyOps (us.map liftTableUpd) db =
      { db with extractTab := db.extractTab.map (fun rs => us.foldl (fun a u => u a) rs) } := by
  induction us generalizing db with
  | nil => simp [applyOps]
  | cons u rest ih =>
    simp only [List.map_cons, applyOps, List.foldl_cons]
    rw [show (List.foldl (fun d op => op d) (liftTableUpd u db) (rest.map liftTableUpd)) =
      applyOps (rest.map liftTableUpd) (liftTableUpd u db) from rfl, ih]
    cases h : db.extractTab <;> simp [liftTableUpd, h]

theorem rule8Rows_falsy (tmp : List (String × Option String)) (impFrom : Option String)
    (impProp : String) (h : truthy impFrom = false) : rule8Rows tmp impFrom impProp = [] := by
  rcases impFrom with _ | iri
  · rfl
  · simp [truthy] at h
    simp [rule8Rows, h]

/-- Running the create-phase statements fault-free from the post-clean
state produces exactly the tables `create_tables_result` describes. -/
theorem create_applyOps (stmt : List Fact) (terms : Terms)
    (predicateIds : Option (List String)) (copyPreds : List (String × String))
    (impFrom : Option String) (impProp : String) (noHierarchy : Bool) (fuel : Nat)
    (res : CreateResult)
    (hres : create_tables_result stmt terms predicateIds copyPreds impFrom impProp
      noHierarchy fuel = some res) :
    ∃ ops, createOps stmt terms predicateIds copyPreds impFrom impProp noHierarchy fuel =
        some ops ∧
      applyOps ops ⟨stmt, none, none, none⟩ =
        ⟨stmt, some res.tmpTerms, some res.tmpPreds, some res.rows⟩ := by
  unfold create_tables_result at hres
  unfold createOps
  cases hrows : termParentRows (createHier stmt terms noHierarchy) (terms.map Prod.fst)
      noHierarchy fuel terms with
  | none => rw [hrows] at hres; cases hres
  | some prows =>
    rw [hrows] at hres
    injection hres with hres
    refine ⟨_, rfl, ?_⟩
    subst hres
    by_cases himp : truthy impFrom = true
    · rcases predicateIds with _ | ⟨_ | ⟨p, ps⟩⟩ <;>
        simp [applyOps_append, applyOps_insTmpTerm, applyOps_insTmpPred, applyOps_copyOps,
          applyOps_cons, applyOps_nil, himp, createTmpTermsOp, createTmpPredsOp,
          createExtractOp, insAllTmpPredsOp, insTmpPredOp, insTmpTermOp, rule1Op, rule2Op, rule3Op, rule4Op, rule5Op,
          rule6Op, rule7Op, impOp, extractRows, tmp_predicates, List.append_assoc]
    · simp only [Bool.not_eq_true] at himp
      rcases predicateIds with _ | ⟨_ | ⟨p, ps⟩⟩ <;>
        simp [applyOps_append, applyOps_insTmpTerm, applyOps_insTmpPred, applyOps_copyOps,
          applyOps_cons, applyOps_nil, himp, createTmpTermsOp, createTmpPredsOp,
          createExtractOp, insAllTmpPredsOp, insTmpPredOp, insTmpTermOp, rule1Op, rule2Op, rule3Op, rule4Op, rule5Op,
          rule6Op, rule7Op, impOp, extractRows, tmp_predicates,
          rule8Rows_falsy _ _ _ himp, List.append_assoc]


theorem clean_true_applyOps (db : DB) :
    applyOps (cleanOps true) db = ⟨db.statement, none, none, none⟩ := rfl

theorem clean_false_applyOps (db : DB) :
    applyOps (cleanOps false) db = ⟨db.statement, none, none, db.extractTab⟩ := rfl

/-- C2 amended: only a run that completes every phase leaves the named
extract table, and then it is fully present — the nine emission rules
in order, QName-escaped; a run that fails during synthesis can instead
leave the table absent or partially built (see the counterexample), so
the write is not transactional. -/
theorem C2_amended_success (db : DB) (terms : Terms) (predicates : List String)
    (copyPreds : List (String × String)) (impFrom : Option String) (impProp : String)
    (intermediates : String) (noHierarchy : Bool) (fuel : Nat) (more : TSet)
    (res : CreateResult)
    (hint : strLower intermediates = "all" ∨ strLower intermediates = "none")
    (hrel : get_related_entities db.statement terms (strLower intermediates) fuel =
      some (.ok more))
    (hres : create_tables_result db.statement (mergeTerms terms more)
      (predIdsOf db.statement predicates) copyPreds impFrom impProp noHierarchy fuel =
      some res) :
    extract_run db terms predicates copyPreds impFrom impProp intermediates noHierarchy
      fuel none =
      some (.ok ⟨db.statement, none, none, some (escape_qnames_table res.rows)⟩) := by
  have hb : (strLower intermediates == "all" || strLower intermediates == "none") = true := by
    rcases hint with h | h <;> simp [h]
  obtain ⟨ops, hops, happ⟩ := create_applyOps db.statement (mergeTerms terms more)
    (predIdsOf db.statement predicates) copyPreds impFrom impProp noHierarchy fuel res hres
  unfold extract_run
  simp only [hb, Bool.not_true, Bool.false_eq_true, if_false, hrel]
  rw [show faultFor none .preClean = none from rfl, runPhase_none, clean_true_applyOps]
  simp only [hops]
  rw [show faultFor none .create = none from rfl, runPhase_none]
  rw [show (⟨db.statement, none, none, none⟩ : DB).statement = db.statement from rfl] at happ
  rw [happ]
  rw [show faultFor none .finallyClean = none from rfl, show faultFor none .escape = none
    from rfl]
  simp only [runPhase_none, clean_false_applyOps, escapeOps, applyOps_escape,
    Option.getD_some, Option.map_some, escape_qnames_table]
  rfl

/-- Witness for C2 amended: the fault-free concrete run produces the
fully built extract table. -/
theorem C2_amended_success_witness :
    extract_run ⟨cexStmt, none, none, none⟩ [("ex:a", ⟨none, none⟩)] [] [] none
      "IAO:0000412" "all" false 10 none =
      some (.ok ⟨cexStmt, none, none,
        some (escape_qnames_table [cexTypeRow, cexLabelRow])⟩) :=
  C2_amended_success ⟨cexStmt, none, none, none⟩ [("ex:a", ⟨none, none⟩)] [] [] none
    "IAO:0000412" "all" false 10 [] ⟨[("ex:a", none)], ["rdfs:label"],
      [cexTypeRow, cexLabelRow]⟩ (Or.inl rfl) rfl rfl


/-- Witness for C8 amended at a concrete fault-free run: both tmp
tables are absent in the exit state. -/
theorem C8_amended_tmp_cleanup_witness :
    (⟨cexStmt, none, none, none⟩ : DB).tmpTerms = none ∧
    ((⟨cexStmt, none, none,
        some (escape_qnames_table [cexTypeRow, cexLabelRow])⟩ : DB).tmpTerms = none ∧
      (⟨cexStmt, none, none,
        some (escape_qnames_table [cexTypeRow, cexLabelRow])⟩ : DB).tmpPreds = none) :=
  ⟨rfl, C8_amended_tmp_cleanup ⟨cexStmt, none, none, none⟩ [("ex:a", ⟨none, none⟩)] [] []
    none "IAO:0000412" "all" false 10 none rfl rfl (fun _ h => Option.noConfusion h)
    ⟨cexStmt, none, none, some (escape_qnames_table [cexTypeRow, cexLabelRow])⟩ rfl⟩


/-! ### Membership lemmas for the DISTINCT/set helpers -/

theorem mem_foldl_distinctAdd {α : Type} [DecidableEq α] (l : List α) :
    ∀ (acc : List α) (x : α), x ∈ l.foldl distinctAdd acc ↔ x ∈ acc ∨ x ∈ l := by
  induction l with
  | nil => simp
  | cons a rest ih =>
    intro acc x
    rw [List.foldl_cons, ih]
    unfold distinctAdd
    by_cases ha : a ∈ acc
    · simp only [if_pos ha]
      constructor
      · rintro (h | h)
        · exact Or.inl h
        · exact Or.inr (List.mem_cons_of_mem _ h)
      · rintro (h | h)
        · exact Or.inl h
        · rcases List.mem_cons.mp h with rfl | h
          · exact Or.inl ha
          · exact Or.inr h
    · simp only [if_neg ha, List.mem_append, List.mem_singleton, List.mem_cons]
      tauto

theorem mem_distinct {α : Type} [DecidableEq α] (l : List α) (x : α) :
    x ∈ distinct l ↔ x ∈ l := by
  unfold distinct
  rw [mem_foldl_distinctAdd]
  simp

/-! ### What the parent-assignment pass inserts -/

theorem termParentHead_child (hier : Hier) (keys : List String) (noH : Bool) (fuel : Nat)
    (td : String × TermDetails) (hd : List (String × Option String))
    (h : termParentHead hier keys noH fuel td = some hd) :
    ∀ r ∈ hd, r.1 = td.1 := by
  unfold termParentHead at h
  cases ho : overrideOf td.2 with
  | some o =>
    rw [ho] at h
    injection h with h
    subst h
    intro r hr
    simp at hr
    subst hr
    rfl
  | none =>
    rw [ho] at h
    by_cases hn : noH
    · simp [hn] at h
      subst h
      simp
    · simp [hn] at h
      cases ha : get_top_ancestors fuel hier td.1 [] keys with
      | none => rw [ha] at h; cases h
      | some anc =>
        rw [ha] at h
        injection h with h
        subst h
        intro r hr
        simp at hr
        obtain ⟨p, _, hp⟩ := hr
        rw [← hp]

theorem termParentHead_override (hier : Hier) (keys : List String) (noH : Bool) (fuel : Nat)
    (td : String × TermDetails) (o : String) (ho : overrideOf td.2 = some o) :
    termParentHead hier keys noH fuel td = some [(td.1, some o)] := by
  unfold termParentHead
  rw [ho]

theorem termParentHead_no_self (hier : Hier) (keys : List String) (noH : Bool) (fuel : Nat)
    (td : String × TermDetails) (hd : List (String × Option String))
    (ho : overrideOf td.2 = none) (h : termParentHead hier keys noH fuel td = some hd) :
    (td.1, some td.1) ∉ hd := by
  unfold termParentHead at h
  rw [ho] at h
  by_cases hn : noH
  · simp [hn] at h
    subst h
    simp
  · simp [hn] at h
    cases ha : get_top_ancestors fuel hier td.1 [] keys with
    | none => rw [ha] at h; cases h
    | some anc =>
      rw [ha] at h
      injection h with h
      subst h
      intro hmem
      simp at hmem

theorem termParentRows_child_mem (hier : Hier) (keys : List String) (noH : Bool)
    (fuel : Nat) : ∀ (terms : Terms) (rows : List (String × Option String)),
    termParentRows hier keys noH fuel terms = some rows →
    ∀ r ∈ rows, r.1 ∈ terms.map Prod.fst := by
  intro terms
  induction terms with
  | nil =>
    intro rows h
    injection h with h
    subst h
    simp
  | cons td rest ih =>
    intro rows h
    unfold termParentRows at h
    cases hh : termParentHead hier keys noH fuel td with
    | none => rw [hh] at h; cases h
    | some hd =>
      cases hr : termParentRows hier keys noH fuel rest with
      | none => rw [hh, hr] at h; cases h
      | some tl =>
        rw [hh, hr] at h
        injection h with h
        subst h
        intro r hrm
        rcases List.mem_append.mp hrm with hm | hm
        · rw [termParentHead_child hier keys noH fuel td hd hh r hm]
          simp
        · simp only [List.map_cons, List.mem_cons]
          exact Or.inr (ih tl hr r hm)

/-- Keys are unique in a dict with Nodup keys. -/
theorem key_unique {α β : Type} [DecidableEq α] :
    ∀ (l : List (α × β)), (l.map Prod.fst).Nodup →
    ∀ (k : α) (b c : β), (k, b) ∈ l → (k, c) ∈ l → b = c := by
  intro l
  induction l with
  | nil => intro _ k b c h; cases h
  | cons a rest ih =>
    intro hnd k b c h1 h2
    simp only [List.map_cons, List.nodup_cons] at hnd
    rcases List.mem_cons.mp h1 with rfl | h1' <;> rcases List.mem_cons.mp h2 with h2' | h2'
    · cases h2'; rfl
    · exact absurd (List.mem_map.mpr ⟨(k, c), h2', rfl⟩) hnd.1
    · cases h2'
      exact absurd (List.mem_map.mpr ⟨(k, b), h1', rfl⟩) hnd.1
    · exact ih hnd.2 k b c h1' h2'

theorem termParentRows_filter_override (hier : Hier) (keys : List String) (noH : Bool)
    (fuel : Nat) : ∀ (terms : Terms) (rows : List (String × Option String))
    (t : String) (d : TermDetails) (o : String),
    (terms.map Prod.fst).Nodup →
    termParentRows hier keys noH fuel terms = some rows →
    (t, d) ∈ terms → overrideOf d = some o →
    rows.filter (fun r => r.1 == t && r.2 != none) = [(t, some o)] := by
  intro terms
  induction terms with
  | nil => intro rows t d o _ _ hmem; cases hmem
  | cons td rest ih =>
    intro rows t d o hnd h hmem hov
    simp only [List.map_cons, List.nodup_cons] at hnd
    unfold termParentRows at h
    cases hh : termParentHead hier keys noH fuel td with
    | none => rw [hh] at h; cases h
    | some hd =>
      cases hr : termParentRows hier keys noH fuel rest with
      | none => rw [hh, hr] at h; cases h
      | some tl =>
        rw [hh, hr] at h
        injection h with h
        subst h
        rw [List.filter_append]
        rcases List.mem_cons.mp hmem with heq | hmem'
        · -- the head entry is (t, d)
          cases heq
          rw [termParentHead_override hier keys noH fuel (t, d) o hov] at hh
          injection hh with hh
          subst hh
          have htl : tl.filter (fun r => r.1 == t && r.2 != none) = [] := by
            rw [List.filter_eq_nil_iff]
            intro r hrm
            have := termParentRows_child_mem hier keys noH fuel rest tl hr r hrm
            intro hcontra
            simp only [Bool.and_eq_true, beq_iff_eq, bne_iff_ne] at hcontra
            rw [hcontra.1] at this
            exact hnd.1 this
          rw [htl]
          simp
        · -- (t, d) is in the tail; the head's rows have a different child
          have hne : td.1 ≠ t := by
            intro hc
            apply hnd.1
            rw [hc]
            exact List.mem_map.mpr ⟨(t, d), hmem', rfl⟩
          have hhd : hd.filter (fun r => r.1 == t && r.2 != none) = [] := by
            rw [List.filter_eq_nil_iff]
            intro r hrm
            have := termParentHead_child hier keys noH fuel td hd hh r hrm
            intro hcontra
            simp only [Bool.and_eq_true, beq_iff_eq, bne_iff_ne] at hcontra
            exact hne (this ▸ hcontra.1)
          rw [hhd, ih tl t d o hnd.2 hr hmem' hov]
          simp

theorem termParentRows_no_self (hier : Hier) (keys : List String) (noH : Bool)
    (fuel : Nat) : ∀ (terms : Terms) (rows : List (String × Option String))
    (t : String) (d : TermDetails),
    (terms.map Prod.fst).Nodup →
    termParentRows hier keys noH fuel terms = some rows →
    (t, d) ∈ terms → overrideOf d = none →
    (t, some t) ∉ rows := by
  intro terms
  induction terms with
  | nil => intro rows t d _ _ hmem; cases hmem
  | cons td rest ih =>
    intro rows t d hnd h hmem hov
    simp only [List.map_cons, List.nodup_cons] at hnd
    unfold termParentRows at h
    cases hh : termParentHead hier keys noH fuel td with
    | none => rw [hh] at h; cases h
    | some hd =>
      cases hr : termParentRows hier keys noH fuel rest with
      | none => rw [hh, hr] at h; cases h
      | some tl =>
        rw [hh, hr] at h
        injection h with h
        subst h
        intro hcontra
        rcases List.mem_append.mp hcontra with hm | hm
        · rcases List.mem_cons.mp hmem with heq | hmem'
          · cases heq
            exact termParentHead_no_self hier keys noH fuel (t, d) hd hov hh hm
          · have := termParentHead_child hier keys noH fuel td hd hh _ hm
            simp only at this
            exact hnd.1 (this ▸ List.mem_map.mpr ⟨(t, d), hmem', rfl⟩)
        · rcases List.mem_cons.mp hmem with heq | hmem'
          · cases heq
            have := termParentRows_child_mem hier keys noH fuel rest tl hr _ hm
            simp only at this
            exact hnd.1 this
          · exact ih tl t d hnd.2 hr hmem' hov hm


theorem truthy_of_override (d : TermDetails) (o : String) (h : overrideOf d = some o) :
    truthy d.parentId = true := by
  unfold overrideOf at h
  cases hp : d.parentId with
  | none => rw [hp] at h; cases h
  | some s =>
    rw [hp] at h
    by_cases hs : s = ""
    · simp [hs] at h
    · simp [truthy, hs]

theorem tmpPairs_mem (tmp : List (String × Option String)) (c p : String) :
    (c, p) ∈ tmpPairs tmp ↔ (c, some p) ∈ tmp := by
  unfold tmpPairs
  rw [List.mem_filterMap]
  constructor
  · rintro ⟨r, hr, hf⟩
    cases hq : r.2 with
    | none => rw [hq] at hf; cases hf
    | some q =>
      rw [hq] at hf
      injection hf with hf
      cases hf
      have : r = (r.1, r.2) := rfl
      rw [this, hq] at hr
      exact hr
  · intro hr
    exact ⟨(c, some p), hr, rfl⟩

theorem tmpPairs_key (tmp : List (String × Option String)) (t o : String)
    (hfil : tmp.filter (fun r => r.1 == t && r.2 != none) = [(t, some o)]) :
    ∀ p, (t, p) ∈ tmpPairs tmp → p = o := by
  intro p hp
  have hmem : (t, some p) ∈ tmp := (tmpPairs_mem tmp t p).mp hp
  have hpred : ((t, some p).1 == t && (t, some p).2 != none) = true := by simp
  have : (t, some p) ∈ tmp.filter (fun r => r.1 == t && r.2 != none) :=
    List.mem_filter.mpr ⟨hmem, hpred⟩
  rw [hfil] at this
  simp at this
  exact this

theorem mapped_pairs_key (tmp : List (String × Option String)) (t o : String)
    (hfil : tmp.filter (fun r => r.1 == t && r.2 != none) = [(t, some o)])
    (g : String × String → Bool) (pname : String) :
    ∀ row ∈ (distinct ((tmpPairs tmp).filter g)).map (fun cp => hierRow pname cp.1 cp.2),
      row.subject = t → row.object = o := by
  intro row hrow hsubj
  obtain ⟨cp, hcp, hmk⟩ := List.mem_map.mp hrow
  have hcp2 : cp ∈ tmpPairs tmp := (List.mem_filter.mp ((mem_distinct _ cp).mp hcp)).1
  have hs : cp.1 = t := by rw [← hmk] at hsubj; exact hsubj
  have ho : row.object = cp.2 := by rw [← hmk]; rfl
  rw [ho]
  refine tmpPairs_key tmp t o hfil cp.2 ?_
  rw [← hs]
  exact hcp2

theorem mapped_pairs_no_self (tmp : List (String × Option String)) (t : String)
    (hns : (t, some t) ∉ tmp)
    (g : String × String → Bool) (pname : String) :
    ∀ row ∈ (distinct ((tmpPairs tmp).filter g)).map (fun cp => hierRow pname cp.1 cp.2),
      ¬(row.subject = t ∧ row.object = t) := by
  rintro row hrow ⟨hsubj, hobj⟩
  obtain ⟨cp, hcp, hmk⟩ := List.mem_map.mp hrow
  have hcp2 : cp ∈ tmpPairs tmp := (List.mem_filter.mp ((mem_distinct _ cp).mp hcp)).1
  have hs : cp.1 = t := by rw [← hmk] at hsubj; exact hsubj
  have ho : cp.2 = t := by rw [← hmk] at hobj; exact hobj
  apply hns
  apply (tmpPairs_mem tmp t t).mp
  have hcpt : cp = (t, t) := by
    cases cp
    simp_all
  exact hcpt ▸ hcp2

/-- C3: a seed with an override parent is excluded from the batched
hierarchy computation, contributes exactly the one override edge to
`tmp_terms` (its only non-NULL row), and therefore every hierarchy
fact rules 2-4 emit with that seed as subject points at the override
parent — independent of the `no_hierarchy` flag. -/
theorem C3_override_short_circuit (stmt : List Fact) (terms : Terms)
    (predicateIds : Option (List String)) (copyPreds : List (String × String))
    (impFrom : Option String) (impProp : String) (noHierarchy : Bool) (fuel : Nat)
    (t : String) (d : TermDetails) (o : String) (res : CreateResult)
    (hnodup : (terms.map Prod.fst).Nodup)
    (hmem : (t, d) ∈ terms) (hov : overrideOf d = some o)
    (hres : create_tables_result stmt terms predicateIds copyPreds impFrom impProp
      noHierarchy fuel = some res) :
    t ∉ assign_parents terms noHierarchy ∧
    res.tmpTerms.filter (fun r => r.1 == t && r.2 != none) = [(t, some o)] ∧
    (∀ row ∈ rule2Rows stmt res.tmpTerms, row.subject = t → row.object = o) ∧
    (∀ row ∈ rule3Rows stmt res.tmpTerms, row.subject = t → row.object = o) ∧
    (∀ row ∈ rule4Rows res.tmpTerms (rule1Rows stmt (tmpChildren res.tmpTerms) ++
      rule2Rows stmt res.tmpTerms ++ rule3Rows stmt res.tmpTerms),
      row.subject = t → row.object = o) := by
  have hassign : t ∉ assign_parents terms noHierarchy := by
    intro hc
    unfold assign_parents at hc
    obtain ⟨td, htd, hf⟩ := List.mem_filterMap.mp hc
    by_cases hn : noHierarchy
    · simp [hn] at hf
    · simp [hn] at hf
      obtain ⟨htr, hteq⟩ := hf
      have hdd : td.2 = d := by
        apply key_unique terms hnodup t td.2 d ?_ hmem
        have : td = (t, td.2) := by
          have : td = (td.1, td.2) := rfl
          rw [this, hteq]
        rw [← this]
        exact htd
      rw [hdd] at htr
      rw [truthy_of_override d o hov] at htr
      simp at htr
  unfold create_tables_result at hres
  cases hrows : termParentRows (createHier stmt terms noHierarchy) (terms.map Prod.fst)
      noHierarchy fuel terms with
  | none => rw [hrows] at hres; cases hres
  | some prows =>
    rw [hrows] at hres
    injection hres with hres
    subst hres
    have hnull : (nullRows terms).filter (fun r => r.1 == t && r.2 != none) = [] := by
      rw [List.filter_eq_nil_iff]
      intro r hr
      obtain ⟨td, _, hmk⟩ := List.mem_map.mp hr
      rw [← hmk]
      simp
    have hfil : (nullRows terms ++ prows).filter (fun r => r.1 == t && r.2 != none) =
        [(t, some o)] := by
      rw [List.filter_append, hnull,
        termParentRows_filter_override (createHier stmt terms noHierarchy)
          (terms.map Prod.fst) noHierarchy fuel terms prows t d o hnodup hrows hmem hov]
      rfl
    exact ⟨hassign, hfil,
      mapped_pairs_key _ t o hfil _ _,
      mapped_pairs_key _ t o hfil _ _,
      mapped_pairs_key _ t o hfil _ _⟩

/-- Witness for C3 on a concrete run: the override seed's only
non-NULL row is the override edge and rule 4 points it at `ex:p`. -/
theorem C3_override_short_circuit_witness :
    "ex:a" ∉ assign_parents [("ex:a", ⟨some "ex:p", none⟩)] false ∧
    ([("ex:a", (none : Option String)), ("ex:a", some "ex:p")].filter
      (fun r => r.1 == "ex:a" && r.2 != none) = [("ex:a", some "ex:p")]) ∧
    (∀ row ∈ rule2Rows [] [("ex:a", none), ("ex:a", some "ex:p")],
      row.subject = "ex:a" → row.object = "ex:p") ∧
    (∀ row ∈ rule3Rows [] [("ex:a", none), ("ex:a", some "ex:p")],
      row.subject = "ex:a" → row.object = "ex:p") ∧
    (∀ row ∈ rule4Rows [("ex:a", none), ("ex:a", some "ex:p")]
      (rule1Rows [] (tmpChildren [("ex:a", none), ("ex:a", some "ex:p")]) ++
        rule2Rows [] [("ex:a", none), ("ex:a", some "ex:p")] ++
        rule3Rows [] [("ex:a", none), ("ex:a", some "ex:p")]),
      row.subject = "ex:a" → row.object = "ex:p") :=
  C3_override_short_circuit [] [("ex:a", ⟨some "ex:p", none⟩)] none [] none "IAO:0000412"
    false 5 "ex:a" ⟨some "ex:p", none⟩ "ex:p"
    ⟨[("ex:a", none), ("ex:a", some "ex:p")], [],
      [hierRow "rdf:type" "ex:a" "ex:p"]⟩
    (by decide) (by decide) rfl rfl


/-- C10 amended: for a working-set term without an override parent the
computed-parent loop skips the term itself, so no self-loop row enters
`tmp_terms` and none of the parent-emission rules 2-4 emits an edge
from the term to itself; a self-loop fact already asserted in the
source statement table can still be copied into the output by the
general fact rules (5-7/9) when its predicate passes the filter. -/
theorem C10_amended_no_computed_self_loop (stmt : List Fact) (terms : Terms)
    (predicateIds : Option (List String)) (copyPreds : List (String × String))
    (impFrom : Option String) (impProp : String) (noHierarchy : Bool) (fuel : Nat)
    (t : String) (d : TermDetails) (res : CreateResult)
    (hnodup : (terms.map Prod.fst).Nodup)
    (hmem : (t, d) ∈ terms) (hov : overrideOf d = none)
    (hres : create_tables_result stmt terms predicateIds copyPreds impFrom impProp
      noHierarchy fuel = some res) :
    (t, some t) ∉ res.tmpTerms ∧
    (∀ row ∈ rule2Rows stmt res.tmpTerms, ¬(row.subject = t ∧ row.object = t)) ∧
    (∀ row ∈ rule3Rows stmt res.tmpTerms, ¬(row.subject = t ∧ row.object = t)) ∧
    (∀ row ∈ rule4Rows res.tmpTerms (rule1Rows stmt (tmpChildren res.tmpTerms) ++
      rule2Rows stmt res.tmpTerms ++ rule3Rows stmt res.tmpTerms),
      ¬(row.subject = t ∧ row.object = t)) := by
  unfold create_tables_result at hres
  cases hrows : termParentRows (createHier stmt terms noHierarchy) (terms.map Prod.fst)
      noHierarchy fuel terms with
  | none => rw [hrows] at hres; cases hres
  | some prows =>
    rw [hrows] at hres
    injection hres with hres
    subst hres
    have hns : (t, some t) ∉ nullRows terms ++ prows := by
      intro hc
      rcases List.mem_append.mp hc with hm | hm
      · obtain ⟨td, _, hmk⟩ := List.mem_map.mp hm
        cases hmk
      · exact termParentRows_no_self (createHier stmt terms noHierarchy)
          (terms.map Prod.fst) noHierarchy fuel terms prows t d hnodup hrows hmem hov hm
    exact ⟨hns, mapped_pairs_no_self _ t hns _ _, mapped_pairs_no_self _ t hns _ _,
      mapped_pairs_no_self _ t hns _ _⟩

/-- Witness for C10 amended on a concrete run (one class seed, no
override): no self-loop in `tmp_terms` and none emitted by rules 2-4. -/
theorem C10_amended_no_computed_self_loop_witness :
    ("ex:a", some "ex:a") ∉ ([("ex:a", (none : Option String))]) ∧
    (∀ row ∈ rule2Rows cexStmt [("ex:a", none)],
      ¬(row.subject = "ex:a" ∧ row.object = "ex:a")) ∧
    (∀ row ∈ rule3Rows cexStmt [("ex:a", none)],
      ¬(row.subject = "ex:a" ∧ row.object = "ex:a")) ∧
    (∀ row ∈ rule4Rows [("ex:a", none)]
      (rule1Rows cexStmt (tmpChildren [("ex:a", none)]) ++
        rule2Rows cexStmt [("ex:a", none)] ++ rule3Rows cexStmt [("ex:a", none)]),
      ¬(row.subject = "ex:a" ∧ row.object = "ex:a")) :=
  C10_amended_no_computed_self_loop cexStmt [("ex:a", ⟨none, none⟩)] none [] none
    "IAO:0000412" false 10 "ex:a" ⟨none, none⟩
    ⟨[("ex:a", none)], ["rdfs:label"], [cexTypeRow, cexLabelRow]⟩
    (by decide) (by decide) rfl rfl

/-- The statement table of the C10 counterexample: the seed is a class
and asserts a subclass self-loop. -/
def c10Stmt : List Fact :=
  [⟨1, 0, "graph", "ex:a", "rdf:type", "owl:Class", "_IRI", none⟩,
   ⟨1, 0, "graph", "ex:a", "rdfs:subClassOf", "ex:a", "_IRI", none⟩]

/-- C10 counterexample to the claim as stated: with the structural
predicate explicitly in the predicate filter, the logical-relationship
rule (6) copies the source's subclass self-loop into the output for a
seed without an override parent — a parent edge from the term to
itself appears as an output fact (the working-terms table itself stays
loop-free). -/
theorem C10_counterexample :
    create_tables_result c10Stmt [("ex:a", ⟨none, none⟩)] (some ["rdfs:subClassOf"]) []
      none "IAO:0000412" false 10 =
      some ⟨[("ex:a", none)], ["rdfs:subClassOf"],
        [⟨1, 0, "graph", "ex:a", "rdf:type", "owl:Class", "_IRI", none⟩,
         ⟨1, 0, "graph", "ex:a", "rdfs:subClassOf", "ex:a", "_IRI", none⟩]⟩ ∧
    overrideOf ⟨none, none⟩ = none ∧
    ((⟨1, 0, "graph", "ex:a", "rdfs:subClassOf", "ex:a", "_IRI", none⟩ : Fact).subject =
      (⟨1, 0, "graph", "ex:a", "rdfs:subClassOf", "ex:a", "_IRI", none⟩ : Fact).object) :=
  ⟨rfl, rfl, rfl⟩

/-- C9: for every (from, to) copy pair, every statement on `from`
whose subject is in the working set is duplicated under `to` with
identical subject, object and datatype — with no condition on the
predicate filter (`predicateIds` is arbitrary and unused). -/
theorem C9_copy_predicates (stmt : List Fact) (terms : Terms)
    (predicateIds : Option (List String)) (copyPreds : List (String × String))
    (impFrom : Option String) (impProp : String) (noHierarchy : Bool) (fuel : Nat)
    (res : CreateResult) (f t : String) (fact : Fact)
    (hres : create_tables_result stmt terms predicateIds copyPreds impFrom impProp
      noHierarchy fuel = some res)
    (hpair : (f, t) ∈ copyPreds) (hfact : fact ∈ stmt) (hpred : fact.predicate = f)
    (hsubj : fact.subject ∈ tmpChildren res.tmpTerms) :
    (⟨fact.assertion, 0, fact.graph, fact.subject, t, fact.object, fact.datatype,
      none⟩ : Fact) ∈ res.rows := by
  unfold create_tables_result at hres
  cases hrows : termParentRows (createHier stmt terms noHierarchy) (terms.map Prod.fst)
      noHierarchy fuel terms with
  | none => rw [hrows] at hres; cases hres
  | some prows =>
    rw [hrows] at hres
    injection hres with hres
    subst hres
    unfold extractRows
    simp only [List.append_assoc, List.mem_append]
    repeat refine Or.inr ?_
    unfold rule9Rows
    rw [List.mem_flatMap]
    refine ⟨(f, t), hpair, ?_⟩
    rw [List.mem_map]
    refine ⟨fact, ?_, rfl⟩
    rw [List.mem_filter]
    refine ⟨hfact, ?_⟩
    simp only [Bool.and_eq_true, beq_iff_eq]
    exact ⟨List.elem_eq_true_of_mem hsubj, hpred⟩

/-- Witness for C9 on a concrete run: the `rdfs:comment`-style copy of
the label under `skos:note` is in the output. -/
theorem C9_copy_predicates_witness :
    (⟨1, 0, "graph", "ex:a", "skos:note", "thing a", "xsd:string", none⟩ : Fact) ∈
      [cexTypeRow, cexLabelRow,
        ⟨1, 0, "graph", "ex:a", "skos:note", "thing a", "xsd:string", none⟩] :=
  C9_copy_predicates cexStmt [("ex:a", ⟨none, none⟩)] none
    [("rdfs:label", "skos:note")] none "IAO:0000412" false 10
    ⟨[("ex:a", none)], ["rdfs:label"],
      [cexTypeRow, cexLabelRow,
        ⟨1, 0, "graph", "ex:a", "skos:note", "thing a", "xsd:string", none⟩]⟩
    "rdfs:label" "skos:note" cexLabelRow rfl (by decide) (by decide) rfl (by decide)


/-! ### Accumulator lemmas for `get_top_ancestors` -/

theorem mem_tinsert (s : TSet) (x y : String) : y ∈ tinsert s x ↔ y ∈ s ∨ y = x := by
  unfold tinsert
  by_cases h : x ∈ s
  · simp only [if_pos h]
    constructor
    · exact Or.inl
    · rintro (hy | rfl)
      · exact hy
      · exact h
  · simp [if_neg h]

theorem tinsert_sub (s : TSet) (x : String) : s ⊆ tinsert s x :=
  fun y hy => (mem_tinsert s x y).mpr (Or.inl hy)

theorem mem_tinsert_self (s : TSet) (x : String) : x ∈ tinsert s x :=
  (mem_tinsert s x x).mpr (Or.inr rfl)

theorem topAnc_mono (hier : Hier) (tops : List String) :
    ∀ fuel u A S, get_top_ancestors fuel hier u A tops = some S → A ⊆ S := by
  intro fuel
  induction fuel with
  | zero => intro u A S h; exact absurd h (by simp [get_top_ancestors])
  | succ fuel ih =>
    have loop : ∀ ps u A S,
        topGo (fun p a => get_top_ancestors fuel hier p a tops) u tops ps A = some S →
        A ⊆ S := by
      intro ps
      induction ps with
      | nil => intro u A S h; injection h with h; subst h; exact fun x hx => hx
      | cons p ps ihp =>
        intro u A S h
        by_cases hthing : p = "owl:Thing"
        · simp only [topGo, if_pos hthing] at h
          exact (tinsert_sub A u).trans (ihp u (tinsert A u) S h)
        · by_cases htops : p ∈ tops
          · simp only [topGo, if_neg hthing, if_pos htops] at h
            exact (tinsert_sub A p).trans (ihp u (tinsert A p) S h)
          · simp only [topGo, if_neg hthing, if_neg htops] at h
            cases hrec : get_top_ancestors fuel hier p A tops with
            | none => rw [hrec] at h; cases h
            | some A1 =>
              rw [hrec] at h
              exact (ih p A A1 hrec).trans (ihp u A1 S h)
    intro u A S h
    cases hp : parentsOf hier u with
    | nil =>
      simp only [get_top_ancestors, hp] at h
      injection h with h
      subst h
      exact tinsert_sub A u
    | cons p ps =>
      simp only [get_top_ancestors, hp] at h
      exact loop (p :: ps) u A S h

theorem topGo_mono (hier : Hier) (tops : List String) (fuel : Nat) :
    ∀ ps u A S,
    topGo (fun p a => get_top_ancestors fuel hier p a tops) u tops ps A = some S →
    A ⊆ S := by
  intro ps
  induction ps with
  | nil => intro u A S h; injection h with h; subst h; exact fun x hx => hx
  | cons p ps ihp =>
    intro u A S h
    by_cases hthing : p = "owl:Thing"
    · simp only [topGo, if_pos hthing] at h
      exact (tinsert_sub A u).trans (ihp u (tinsert A u) S h)
    · by_cases htops : p ∈ tops
      · simp only [topGo, if_neg hthing, if_pos htops] at h
        exact (tinsert_sub A p).trans (ihp u (tinsert A p) S h)
      · simp only [topGo, if_neg hthing, if_neg htops] at h
        cases hrec : get_top_ancestors fuel hier p A tops with
        | none => rw [hrec] at h; cases h
        | some A1 =>
          rw [hrec] at h
          exact (topAnc_mono hier tops fuel p A A1 hrec).trans (ihp u A1 S h)

theorem topGo_thing_mem (hier : Hier) (tops : List String) (fuel : Nat) :
    ∀ ps u A S,
    topGo (fun p a => get_top_ancestors fuel hier p a tops) u tops ps A = some S →
    "owl:Thing" ∈ ps → u ∈ S := by
  intro ps
  induction ps with
  | nil => intro u A S _ hm; cases hm
  | cons p ps ihp =>
    intro u A S h hm
    by_cases hthing : p = "owl:Thing"
    · simp only [topGo, if_pos hthing] at h
      exact topGo_mono hier tops fuel ps u (tinsert A u) S h (mem_tinsert_self A u)
    · have hm' : "owl:Thing" ∈ ps := by
        rcases List.mem_cons.mp hm with rfl | hm'
        · exact absurd rfl hthing
        · exact hm'
      by_cases htops : p ∈ tops
      · simp only [topGo, if_neg hthing, if_pos htops] at h
        exact ihp u (tinsert A p) S h hm'
      · simp only [topGo, if_neg hthing, if_neg htops] at h
        cases hrec : get_top_ancestors fuel hier p A tops with
        | none => rw [hrec] at h; cases h
        | some A1 =>
          rw [hrec] at h
          exact ihp u A1 S h hm'

/-- C4 amended: the record-the-term-itself rule fires exactly for the
raw universal top `owl:Thing`: (a) whenever a term's parent list
contains `owl:Thing` and the traversal terminates, the term itself is
in the result; (b) in a resolver-produced closure `owl:Thing` has been
remapped to `owl:Class`, and there a term whose sole parent is the
class-root sentinel yields `{owl:Class}` — the traversal walks through
the sentinel and records the sentinel (a parentless node), not the
term itself. -/
theorem C4_amended_sentinel_behavior :
    (∀ (fuel : Nat) (hier : Hier) (tops : List String) (t : String) (acc S : TSet),
      "owl:Thing" ∈ parentsOf hier t →
      get_top_ancestors fuel hier t acc tops = some S → t ∈ S) ∧
    (∀ (fuel : Nat) (hier : Hier) (tops : List String) (t : String),
      parentsOf hier t = ["owl:Class"] → parentsOf hier "owl:Class" = [] →
      "owl:Class" ∉ tops →
      get_top_ancestors (fuel + 2) hier t [] tops = some ["owl:Class"]) := by
  constructor
  · intro fuel hier tops t acc S hthing h
    cases fuel with
    | zero => exact absurd h (by simp [get_top_ancestors])
    | succ fuel =>
      cases hp : parentsOf hier t with
      | nil => rw [hp] at hthing; cases hthing
      | cons p ps =>
        simp only [get_top_ancestors, hp] at h
        rw [hp] at hthing
        exact topGo_thing_mem hier tops fuel (p :: ps) t acc S h hthing
  · intro fuel hier tops t hp hpc htops
    have hne : ("owl:Class" : String) ≠ "owl:Thing" := by decide
    simp only [get_top_ancestors, hp, topGo, if_neg hne, if_neg htops, hpc, tinsert]
    simp

/-- Witness for C4 amended: (a) with raw parent `owl:Thing` the term
itself is recorded; (b) with the remapped parent `owl:Class` the
result is `{owl:Class}`. -/
theorem C4_amended_sentinel_behavior_witness :
    "ex:A" ∈ (["ex:A"] : TSet) ∧
    get_top_ancestors 5 [("ex:A", ["owl:Class"])] "ex:A" [] [] = some ["owl:Class"] :=
  ⟨C4_amended_sentinel_behavior.1 5 [("ex:A", ["owl:Thing"])] [] "ex:A" [] ["ex:A"]
      (by decide) rfl,
    C4_amended_sentinel_behavior.2 3 [("ex:A", ["owl:Class"])] [] "ex:A" rfl rfl
      (by decide)⟩

/-- The one-edge statement table whose ancestor closure the resolver
remaps: `ex:A rdfs:subClassOf owl:Thing`. -/
def c4Stmt : List Fact :=
  [⟨1, 0, "graph", "ex:A", "rdfs:subClassOf", "owl:Thing", "_IRI", none⟩]

/-- C4 counterexample to the claim as stated: in the closure the
hierarchy resolver produces (with `owl:Thing` remapped to the
class-root sentinel `owl:Class`), the term whose parent is the
sentinel is NOT recorded as its own stopping point: the traversal
returns `{owl:Class}`, not `{ex:A}`. -/
theorem C4_counterexample :
    get_ancestor_hierarchy c4Stmt ["ex:A"] = [("ex:A", ["owl:Class"])] ∧
    get_top_ancestors 5 (get_ancestor_hierarchy c4Stmt ["ex:A"]) "ex:A" [] [] =
      some ["owl:Class"] ∧
    "ex:A" ∉ (["owl:Class"] : TSet) :=
  ⟨rfl, rfl, by decide⟩


/-- Lockstep comparison of the two ancestor reducers: whenever
`get_top_ancestors` terminates, `get_hierarchy_capped` terminates on
the same fuel and covers every result element except possibly the
start term `t0` itself. -/
theorem capped_covers_top (hier : Hier) (tops : List String) (t0 : String) :
    ∀ fuel u A C S, (∀ x ∈ A, x ∈ C ∨ x = t0) → (u ∈ C ∨ u = t0) →
      get_top_ancestors fuel hier u A tops = some S →
      ∃ T, get_hierarchy_capped fuel hier tops u C = some T ∧
        (∀ x ∈ S, x ∈ T ∨ x = t0) ∧ C ⊆ T := by
  intro fuel
  induction fuel with
  | zero => intro u A C S _ _ htop; exact absurd htop (by simp [get_top_ancestors])
  | succ fuel ih =>
    have loop : ∀ ps u A C S, (∀ x ∈ A, x ∈ C ∨ x = t0) → (u ∈ C ∨ u = t0) →
        topGo (fun p a => get_top_ancestors fuel hier p a tops) u tops ps A = some S →
        ∃ T, cappedGo (fun p a => get_hierarchy_capped fuel hier tops p a) tops ps C =
          some T ∧ (∀ x ∈ S, x ∈ T ∨ x = t0) ∧ C ⊆ T := by
      intro ps
      induction ps with
      | nil =>
        intro u A C S hsub hu htop
        injection htop with htop
        subst htop
        exact ⟨C, rfl, hsub, fun x hx => hx⟩
      | cons p ps ihp =>
        intro u A C S hsub hu htop
        by_cases hthing : p = "owl:Thing"
        · simp only [topGo, if_pos hthing] at htop
          simp only [cappedGo, if_pos hthing]
          refine ihp u (tinsert A u) C S ?_ hu htop
          intro x hx
          rcases (mem_tinsert A u x).mp hx with hxA | rfl
          · exact hsub x hxA
          · exact hu
        · by_cases htops : p ∈ tops
          · simp only [topGo, if_neg hthing, if_pos htops] at htop
            have hcond : tops ≠ [] ∧ p ∈ tops :=
              ⟨fun hc => absurd (hc ▸ htops) (List.not_mem_nil p), htops⟩
            simp only [cappedGo, if_neg hthing, if_pos hcond]
            have hsub' : ∀ x ∈ tinsert A p, x ∈ tinsert C p ∨ x = t0 := by
              intro x hx
              rcases (mem_tinsert A p x).mp hx with hxA | hxp
              · rcases hsub x hxA with hxC | hx0
                · exact Or.inl (tinsert_sub C p hxC)
                · exact Or.inr hx0
              · rw [hxp]
                exact Or.inl (mem_tinsert_self C p)
            have hu' : u ∈ tinsert C p ∨ u = t0 := by
              rcases hu with huC | hu0
              · exact Or.inl (tinsert_sub C p huC)
              · exact Or.inr hu0
            obtain ⟨T, hT, hS, hCT⟩ := ihp u (tinsert A p) (tinsert C p) S hsub' hu' htop
            exact ⟨T, hT, hS, (tinsert_sub C p).trans hCT⟩
          · simp only [topGo, if_neg hthing, if_neg htops] at htop
            have hcond : ¬(tops ≠ [] ∧ p ∈ tops) := fun hc => htops hc.2
            cases hrec : get_top_ancestors fuel hier p A tops with
            | none => rw [hrec] at htop; cases htop
            | some A1 =>
              rw [hrec] at htop
              have hsubA : ∀ x ∈ A, x ∈ tinsert C p ∨ x = t0 := by
                intro x hx
                rcases hsub x hx with hxC | hx0
                · exact Or.inl (tinsert_sub C p hxC)
                · exact Or.inr hx0
              obtain ⟨T1, hT1, hS1, hCT1⟩ := ih p A (tinsert C p) A1 hsubA
                (Or.inl (mem_tinsert_self C p)) hrec
              simp only [cappedGo, if_neg hthing, if_neg hcond, hT1]
              have hu1 : u ∈ T1 ∨ u = t0 := by
                rcases hu with huC | hu0
                · exact Or.inl (hCT1 (tinsert_sub C p huC))
                · exact Or.inr hu0
              obtain ⟨T, hT, hS, hCT⟩ := ihp u A1 T1 S hS1 hu1 htop
              exact ⟨T, hT, hS, ((tinsert_sub C p).trans hCT1).trans hCT⟩
    intro u A C S hsub hu htop
    cases hp : parentsOf hier u with
    | nil =>
      simp only [get_top_ancestors, hp] at htop
      injection htop with htop
      subst htop
      refine ⟨C, ?_, ?_, fun x hx => hx⟩
      · simp [get_hierarchy_capped, hp, cappedGo]
      · intro x hx
        rcases (mem_tinsert A u x).mp hx with hxA | rfl
        · exact hsub x hxA
        · exact hu
    | cons p ps =>
      simp only [get_top_ancestors, hp] at htop
      simp only [get_hierarchy_capped, hp]
      exact loop (p :: ps) u A C S hsub hu htop

/-- C5 amended: on any closure and frontier, whenever both reducers
return for a term `t`, the capped set covers the nearest-frontier set
except possibly `t` itself (`capped ⊇ top \ {t}`); the unrestricted
superset fails only by `t` (see the counterexample, where a parentless
`t` gives top = {t} and capped = {}). -/
theorem C5_amended_capped_superset (hier : Hier) (tops : List String) (t : String)
    (fuel : Nat) (S T : TSet)
    (htop : get_top_ancestors fuel hier t [] tops = some S)
    (hcap : get_hierarchy_capped fuel hier tops t [] = some T) :
    ∀ x ∈ S, x ∈ T ∨ x = t := by
  obtain ⟨T', hT', hS, _⟩ :=
    capped_covers_top hier tops t fuel t [] [] S (by intro x hx; cases hx)
      (Or.inr rfl) htop
  rw [hcap] at hT'
  injection hT' with hT'
  subst hT'
  exact hS

/-- Witness for C5 amended at a concrete input: top = capped = {ex:B}
for the one-edge closure, and the covered element `ex:B` is in the
capped set. -/
theorem C5_amended_capped_superset_witness :
    "ex:B" ∈ (["ex:B"] : TSet) ∨ "ex:B" = "ex:A" :=
  C5_amended_capped_superset [("ex:A", ["ex:B"])] [] "ex:A" 5 ["ex:B"] ["ex:B"] rfl rfl
    "ex:B" (by decide)

/-- C5 counterexample to the claim as stated: `ex:A` is reachable in
the closure `{ex:B -> [ex:A]}` (it occurs as a parent), has no parents
of its own, and `top(ex:A) = {ex:A}` while `capped(ex:A) = {}` — the
capped set is not a superset of the nearest-frontier set. -/
theorem C5_counterexample :
    get_top_ancestors 5 [("ex:B", ["ex:A"])] "ex:A" [] [] = some ["ex:A"] ∧
    get_hierarchy_capped 5 [("ex:B", ["ex:A"])] [] "ex:A" [] = some [] ∧
    "ex:A" ∈ parentsOf [("ex:B", ["ex:A"])] "ex:B" ∧
    ¬(["ex:A"] : TSet) ⊆ ([] : TSet) :=
  ⟨rfl, rfl, by decide, by decide⟩

end Gadget
